import Mathlib

/-!
Verification of the gameplay core of the Curator rhythm game.

The embedding translates, over the rationals:
  * the world constants and the demo gate list from src/constants.ts;
  * the note/gate/hand data model from src/types.ts;
  * the per-frame spawn loop and judgement loop of the GameScene component
    (spawn cursor, active set, expiry check, hit window, spatial test,
    quality test), with the active set represented as a list of indices
    into the chart list so that the in-place mutation of note flags is
    shared between the chart and the active set, as in the source;
  * the scoring handlers handleNoteHit / handleNoteMiss / startGame of the
    App component, with a ghost counter lossTriggers recording each
    scheduled endGame(false) call.

Square roots are avoided: every comparison the source makes against a
length or a distance (distanceTo < 0.8, velocity length >= 1.5, normalized
dot >= 0.3) is encoded by the equivalent comparison of squares, which is
exact because both sides are nonnegative; the THREE.js normalize of the
zero vector (which leaves the zero vector unchanged) is covered by the
explicit 0 < norm2 conjunct of dirDotAtLeast.
-/

namespace Curator

/-- A 3D vector over the rationals, embedding THREE.Vector3 as the game uses it. -/
structure Vec3 where
  x : ℚ
  y : ℚ
  z : ℚ
deriving DecidableEq

/-- Dot product (THREE.Vector3.dot). -/
def dot (a b : Vec3) : ℚ := a.x * b.x + a.y * b.y + a.z * b.z

/-- Squared length of a vector. -/
def norm2 (a : Vec3) : ℚ := dot a a

/-- Squared Euclidean distance between two points. -/
def dist2 (a b : Vec3) : ℚ := norm2 ⟨a.x - b.x, a.y - b.y, a.z - b.z⟩

/-- SPAWN_Z from src/constants.ts. -/
def SPAWN_Z : ℚ := -40

/-- PLAYER_Z from src/constants.ts: the interaction plane. -/
def PLAYER_Z : ℚ := 0

/-- MISS_Z from src/constants.ts: the expiry threshold beyond the player. -/
def MISS_Z : ℚ := 5

/-- NOTE_SPEED from src/constants.ts. -/
def NOTE_SPEED : ℚ := 12

/-- LANE_WIDTH from src/constants.ts (0.8). -/
def LANE_WIDTH : ℚ := 4/5

/-- LANE_X_POSITIONS from src/constants.ts. -/
def LANE_X_POSITIONS : List ℚ :=
  [-3/2 * LANE_WIDTH, -1/2 * LANE_WIDTH, 1/2 * LANE_WIDTH, 3/2 * LANE_WIDTH]

/-- LAYER_Y_POSITIONS from src/constants.ts (0.8, 1.6, 2.4). -/
def LAYER_Y_POSITIONS : List ℚ := [4/5, 8/5, 12/5]

/-- HandType from src/types.ts. -/
inductive HandType
  | left
  | right
deriving DecidableEq

/-- CutDirection from src/types.ts. -/
inductive CutDirection
  | UP
  | DOWN
  | LEFT
  | RIGHT
  | ANY
deriving DecidableEq

/-- NoteTier from src/types.ts. -/
inductive NoteTier
  | TIER_1
  | TIER_2
  | TIER_3
deriving DecidableEq

/-- NoteAxis from src/types.ts. -/
inductive NoteAxis
  | INSTITUTION
  | ACADEMIC
  | DISCOURSE
  | NETWORK
deriving DecidableEq

/-- GameStatus from src/types.ts. -/
inductive GameStatus
  | LOADING
  | IDLE
  | PLAYING
  | GAME_OVER
  | VICTORY
deriving DecidableEq

/-- DIRECTION_VECTORS from src/constants.ts. -/
def DIRECTION_VECTORS : CutDirection → Vec3
  | CutDirection.UP => ⟨0, 1, 0⟩
  | CutDirection.DOWN => ⟨0, -1, 0⟩
  | CutDirection.LEFT => ⟨-1, 0, 0⟩
  | CutDirection.RIGHT => ⟨1, 0, 0⟩
  | CutDirection.ANY => ⟨0, 0, 0⟩

/-- NoteData from src/types.ts; hit and missed default to false (undefined
    in the source is falsy) and hitTime to none. -/
structure NoteData where
  id : String
  time : ℚ
  lineIndex : ℕ
  lineLayer : ℕ
  type : HandType
  cutDirection : CutDirection
  tier : NoteTier
  axis : NoteAxis
  hit : Bool := false
  missed : Bool := false
  hitTime : Option ℚ := none
deriving DecidableEq

/-- The POSITIVE / NEGATIVE / NEUTRAL tag of GateData in src/types.ts. -/
inductive GateKind
  | POSITIVE
  | NEGATIVE
  | NEUTRAL
deriving DecidableEq

/-- GateData from src/types.ts. -/
structure GateData where
  id : String
  time : ℚ
  label : String
  subLabel : String
  type : GateKind
deriving DecidableEq

/-- GATES from src/constants.ts. -/
def GATES : List GateData :=
  [ ⟨"gate-1", 12, "SCANDAL", "The Awakening", GateKind.NEGATIVE⟩,
    ⟨"gate-2", 12, "ELITE COURSE", "The Awakening", GateKind.POSITIVE⟩,
    ⟨"gate-3", 12, "DISCOVERY", "The Awakening", GateKind.POSITIVE⟩,
    ⟨"gate-4", 34, "EXPULSION", "The Conflict", GateKind.NEGATIVE⟩,
    ⟨"gate-5", 34, "ACCLAIM", "The Conflict", GateKind.POSITIVE⟩,
    ⟨"gate-6", 34, "TERMINATION", "The Conflict", GateKind.NEGATIVE⟩,
    ⟨"gate-7", 56, "HIATUS", "The Establishment", GateKind.NEUTRAL⟩,
    ⟨"gate-8", 56, "MUSEUM", "The Establishment", GateKind.POSITIVE⟩,
    ⟨"gate-9", 56, "BIENNALE", "The Establishment", GateKind.POSITIVE⟩ ]

/-- HandPositions from src/types.ts: the per-frame hand tracker snapshot. -/
structure HandPositions where
  left : Option Vec3
  right : Option Vec3
  leftVelocity : Vec3
  rightVelocity : Vec3
deriving DecidableEq

/-- Lane index to x coordinate (LANE_X_POSITIONS[note.lineIndex]). -/
def laneX (i : ℕ) : ℚ := LANE_X_POSITIONS.getD i 0

/-- Layer index to y coordinate (LAYER_Y_POSITIONS[note.lineLayer]). -/
def layerY (i : ℕ) : ℚ := LAYER_Y_POSITIONS.getD i 0

/-- The travel position of a note at instant now, from the judgement loop:
    currentZ = PLAYER_Z - (note.time - time) * NOTE_SPEED. -/
def currentZ (note : NoteData) (now : ℚ) : ℚ :=
  PLAYER_Z - (note.time - now) * NOTE_SPEED

/-- The 3D target point of a note at instant now, as the judgement loop
    builds it: lane x, layer y, computed travel z. -/
def notePoint (note : NoteData) (now : ℚ) : Vec3 :=
  ⟨laneX note.lineIndex, layerY note.lineLayer, currentZ note now⟩

/-- Hand sample selection: note.type left gives hands.left, else hands.right. -/
def handPosOf (hands : HandPositions) : HandType → Option Vec3
  | HandType.left => hands.left
  | HandType.right => hands.right

/-- Hand velocity selection, matching handPosOf. -/
def handVelOf (hands : HandPositions) : HandType → Vec3
  | HandType.left => hands.leftVelocity
  | HandType.right => hands.rightVelocity

/-- Encodes: length of v is at least s (for nonnegative s), as a comparison
    of squares. -/
def speedAtLeast (v : Vec3) (s : ℚ) : Bool := decide (s ^ 2 ≤ norm2 v)

/-- Encodes: the dot product of the THREE.js normalization of v with d is at
    least c, for a positive threshold c. THREE.js maps the zero vector to
    itself, whose dot with d is 0 < c, hence the 0 < norm2 v conjunct;
    for nonzero v the two nonnegative sides are compared squared. -/
def dirDotAtLeast (v d : Vec3) (c : ℚ) : Bool :=
  decide (0 < norm2 v ∧ 0 ≤ dot v d ∧ c ^ 2 * norm2 v ≤ dot v d ^ 2)

/-- The quality test of the judgement loop: for a directional note, goodCut
    stays true iff the normalized-velocity dot is at least 0.3 and speed at
    least 1.5; for CutDirection.ANY, iff speed is at least 1.5. -/
def goodCutOf (note : NoteData) (handVel : Vec3) : Bool :=
  match note.cutDirection with
  | CutDirection.ANY => speedAtLeast handVel (3/2)
  | d => dirDotAtLeast handVel (DIRECTION_VECTORS d) (3/10) && speedAtLeast handVel (3/2)

/-- Outcome of the per-note body of the judgement loop for one tick. -/
inductive JudgeOutcome
  | stays
  | expired
  | struck (goodCut : Bool)
deriving DecidableEq

/-- Steps 3 and 4 of the per-note body: the hand sample null check, the
    spatial test (distance < 0.8) and, on contact, the quality test. -/
def judgeSpatial (note : NoteData) (hands : HandPositions) (now : ℚ) :
    Option Vec3 → JudgeOutcome
  | none => JudgeOutcome.stays
  | some handPos =>
    if dist2 handPos (notePoint note now) < (4/5) ^ 2 then
      JudgeOutcome.struck (goodCutOf note (handVelOf hands note.type))
    else JudgeOutcome.stays

/-- The per-note body of the judgement loop of GameScene, in source order:
    first the expiry check (currentZ > MISS_Z), then the hit window
    (PLAYER_Z - 1.5 < currentZ < PLAYER_Z + 1.0), then the hand sample
    null check, the spatial test and the quality test. -/
def judgeNote (note : NoteData) (hands : HandPositions) (now : ℚ) : JudgeOutcome :=
  if MISS_Z < currentZ note now then JudgeOutcome.expired
  else if PLAYER_Z - 3/2 < currentZ note now ∧ currentZ note now < PLAYER_Z + 1 then
    judgeSpatial note hands now (handPosOf hands note.type)
  else JudgeOutcome.stays

/-- The chart entry a resolving tick leaves behind for a pending note, by
    outcome: expiry sets missed, a strike sets hit and records hitTime. -/
def outcomeNote (note : NoteData) (now : ℚ) : JudgeOutcome → NoteData
  | JudgeOutcome.stays => note
  | JudgeOutcome.expired => { note with missed := true }
  | JudgeOutcome.struck _ => { note with hit := true, hitTime := some now }

/-- The chart entry at index j carries a resolved (hit or missed) note. -/
def resolvedAtJ (notes : List NoteData) (j : ℕ) : Prop :=
  ∃ n, notes[j]? = some n ∧ (n.hit || n.missed) = true

/-- No chart entry has both resolution flags set. -/
def flagsOK (notes : List NoteData) : Prop :=
  ∀ n ∈ notes, n.hit = false ∨ n.missed = false

/-- The judgement events the scene emits to the App (onNoteHit / onNoteMiss),
    carrying the chart index of the note. -/
inductive GameEvent
  | noteHit (idx : ℕ) (goodCut : Bool)
  | noteMiss (idx : ℕ)
deriving DecidableEq

/-- The events a resolving tick emits for a pending note, by outcome. -/
def outcomeEvents (j : ℕ) : JudgeOutcome → List GameEvent
  | JudgeOutcome.stays => []
  | JudgeOutcome.expired => [GameEvent.noteMiss j]
  | JudgeOutcome.struck g => [GameEvent.noteHit j g]

/-- Chart index of the note an event is about. -/
def eventIdx : GameEvent → ℕ
  | GameEvent.noteHit j _ => j
  | GameEvent.noteMiss j => j

/-- The events of a list that are about note index j. -/
def eventsFor (j : ℕ) (evs : List GameEvent) : List GameEvent :=
  evs.filter (fun e => eventIdx e == j)

/-- Accumulator of the judgement loop: the chart (shared, mutated in place in
    the source), the indices kept in the active set, and the emitted events.
    The loop of the source scans the active array from its last index down to
    0 and splices out each resolved note; the embedding folds over the
    reversed active list, prepending each kept index, so that kept ends in
    the original order and events are emitted in source order. -/
structure JudgeAcc where
  notes : List NoteData
  kept : List ℕ
  events : List GameEvent

/-- The mutation a resolved judgement outcome applies: stays keeps the note
    active and pending; expired marks it missed in the shared chart, splices
    it out and emits onNoteMiss; struck marks it hit with its hitTime,
    splices it out and emits onNoteHit with the goodCut flag. -/
def judgeResolve (acc : JudgeAcc) (j : ℕ) (note : NoteData) (now : ℚ) :
    JudgeOutcome → JudgeAcc
  | JudgeOutcome.stays => { acc with kept := j :: acc.kept }
  | JudgeOutcome.expired =>
      { notes := acc.notes.set j { note with missed := true },
        kept := acc.kept,
        events := acc.events ++ [GameEvent.noteMiss j] }
  | JudgeOutcome.struck g =>
      { notes := acc.notes.set j { note with hit := true, hitTime := some now },
        kept := acc.kept,
        events := acc.events ++ [GameEvent.noteHit j g] }

/-- One iteration of the judgement loop given the chart entry at index j:
    skip already resolved notes (continue, staying active), otherwise apply
    judgeNote and resolve. -/
def judgeNoteStepCore (hands : HandPositions) (now : ℚ) (acc : JudgeAcc) (j : ℕ) :
    Option NoteData → JudgeAcc
  | none => { acc with kept := j :: acc.kept }
  | some note =>
    if note.hit || note.missed then { acc with kept := j :: acc.kept }
    else judgeResolve acc j note now (judgeNote note hands now)

/-- One iteration of the judgement loop at active index j. -/
def judgeNoteStep (hands : HandPositions) (now : ℚ) (acc : JudgeAcc) (j : ℕ) : JudgeAcc :=
  judgeNoteStepCore hands now acc j acc.notes[j]?

/-- The whole judgement loop of one tick. -/
def judgeLoop (notes : List NoteData) (active : List ℕ) (hands : HandPositions)
    (now : ℚ) : JudgeAcc :=
  active.reverse.foldl (judgeNoteStep hands now) ⟨notes, [], []⟩

/-- spawnAheadTime of the spawn loop: Math.abs(SPAWN_Z - PLAYER_Z) / NOTE_SPEED. -/
def spawnAheadTime : ℚ := |SPAWN_Z - PLAYER_Z| / NOTE_SPEED

/-- The spawn while-loop: while the next chart note satisfies
    note.time - spawnAheadTime <= now, push its index onto the active list
    and advance the cursor. The fuel argument bounds the iteration count;
    called with the number of remaining chart entries it is never exhausted
    before the loop condition fails. -/
def spawnRec : ℕ → List NoteData → List ℕ → ℕ → ℚ → List ℕ × ℕ
  | 0, _, active, next, _ => (active, next)
  | fuel + 1, notes, active, next, now =>
    match notes[next]? with
    | none => (active, next)
    | some n =>
      if n.time - spawnAheadTime ≤ now then
        spawnRec fuel notes (active ++ [next]) (next + 1) now
      else (active, next)

/-- The scene state owned by GameScene across ticks: the chart (notesState,
    whose note objects are shared with the active set), the active set as
    chart indices (activeNotesRef), and the spawn cursor (nextNoteIndexRef). -/
structure SceneState where
  notes : List NoteData
  active : List ℕ
  nextNoteIndex : ℕ
deriving DecidableEq

/-- The spawn stage of one tick. -/
def spawnStage (s : SceneState) (now : ℚ) : List ℕ × ℕ :=
  spawnRec (s.notes.length - s.nextNoteIndex) s.notes s.active s.nextNoteIndex now

/-- One PLAYING tick of the GameScene useFrame callback at timeline instant
    now: the spawn loop, then the judgement loop over the active set. -/
def gameTick (s : SceneState) (hands : HandPositions) (now : ℚ) :
    SceneState × List GameEvent :=
  let sp := spawnStage s now
  let acc := judgeLoop s.notes sp.1 hands now
  (⟨acc.notes, acc.kept, sp.2⟩, acc.events)

/-- A sequence of PLAYING ticks, collecting all emitted judgement events. -/
def runTicks : SceneState → List (HandPositions × ℚ) → SceneState × List GameEvent
  | s, [] => (s, [])
  | s, p :: rest =>
    let step := gameTick s p.1 p.2
    let restRun := runTicks step.1 rest
    (restRun.1, step.2 ++ restRun.2)

/-- The indices the spawn stage of one tick pushes onto the active list. -/
def promotedByTick (s : SceneState) (now : ℚ) : List ℕ :=
  ((spawnStage s now).1).drop s.active.length

/-- All indices promoted over a sequence of ticks. -/
def promotedDuring : SceneState → List (HandPositions × ℚ) → List ℕ
  | _, [] => []
  | s, p :: rest => promotedByTick s p.2 ++ promotedDuring (gameTick s p.1 p.2).1 rest

/-- The scene state at the start of a session on a chart whose resolution
    flags are clean. -/
def initScene (chart : List NoteData) : SceneState :=
  ⟨chart.map (fun n => { n with hit := false, missed := false }), [], 0⟩

/-- Well-formedness of the scene state maintained by the tick loop: the
    active set has no duplicate indices and every active index is behind the
    spawn cursor. -/
def SceneInv (s : SceneState) : Prop :=
  s.active.Nodup ∧ ∀ k ∈ s.active, k < s.nextNoteIndex

instance sceneInvDecidable (s : SceneState) : Decidable (SceneInv s) :=
  inferInstanceAs (Decidable (s.active.Nodup ∧ ∀ k ∈ s.active, k < s.nextNoteIndex))

/-- Chart order hypothesis: the chart list is sorted ascending by time. -/
def sortedByTimeB : List NoteData → Bool
  | [] => true
  | [_] => true
  | a :: b :: rest => decide (a.time ≤ b.time) && sortedByTimeB (b :: rest)

/-- The judgement events as the scoring state machine of the App receives
    them: onNoteHit carries the goodCut flag, onNoteMiss carries nothing the
    scoring handlers read. -/
inductive ScoreEvent
  | hit (goodCut : Bool)
  | miss
deriving DecidableEq

/-- The scoring state of the App component. lossTriggers is a ghost counter
    of the endGame(false) calls handleNoteMiss schedules through setTimeout
    whenever the decreased health is at or below zero. -/
structure AppState where
  score : ℚ
  combo : ℕ
  multiplier : ℚ
  health : ℤ
  status : GameStatus
  lossTriggers : ℕ
deriving DecidableEq

/-- handleNoteHit from the App: points are 100 plus 50 for a good cut; combo
    increments; the multiplier is set from the new combo (8 above 30, 4
    above 20, 2 above 10, else 1); the score adds points times the
    multiplier value captured by the callback closure, which is the state
    value of the render before this event (multSnapshot), not the value the
    same event just set; health gains 2 capped at 100. -/
def handleNoteHit (multSnapshot : ℚ) (goodCut : Bool) (st : AppState) : AppState :=
  let points : ℚ := 100 + (if goodCut then 50 else 0)
  let newCombo := st.combo + 1
  let newMultiplier : ℚ :=
    if newCombo > 30 then 8 else if newCombo > 20 then 4
    else if newCombo > 10 then 2 else 1
  { st with
    combo := newCombo,
    multiplier := newMultiplier,
    score := st.score + points * multSnapshot,
    health := min 100 (st.health + 2) }

/-- handleNoteMiss from the App: combo resets to 0, multiplier to 1; health
    drops by 15; when the new health is at or below zero it is stored as 0
    and an endGame(false) call is scheduled (counted by lossTriggers). -/
def handleNoteMiss (st : AppState) : AppState :=
  let newHealth := st.health - 15
  { st with
    combo := 0,
    multiplier := 1,
    health := if newHealth ≤ 0 then 0 else newHealth,
    lossTriggers := if newHealth ≤ 0 then st.lossTriggers + 1 else st.lossTriggers }

/-- Dispatch of one judgement event to the scoring handlers. multSnapshot is
    the multiplier state of the render the tick runs under. -/
def processScoreEvent (multSnapshot : ℚ) (st : AppState) (e : ScoreEvent) : AppState :=
  match e with
  | ScoreEvent.hit g => handleNoteHit multSnapshot g st
  | ScoreEvent.miss => handleNoteMiss st

/-- The effect, after a frame, of the endGame(false) calls the frame
    scheduled: when the frame scheduled at least one (the ghost counter
    grew), the status becomes GAME_OVER; endGame is idempotent, so the
    number of scheduled calls does not matter beyond being positive. -/
def applyScheduledEndGame (before after : AppState) : AppState :=
  if before.lossTriggers < after.lossTriggers then
    { after with status := GameStatus.GAME_OVER }
  else after

/-- One frame of scoring: judgement events are only produced while the
    status is PLAYING; every event of the frame sees the same captured
    multiplier (the callback closure of that render); the endGame calls
    scheduled during the frame run after it and set the status to
    GAME_OVER. -/
def scoreTick (st : AppState) (evs : List ScoreEvent) : AppState :=
  if st.status = GameStatus.PLAYING then
    applyScheduledEndGame st (evs.foldl (processScoreEvent st.multiplier) st)
  else st

/-- The scoring state startGame establishes: score 0, combo 0, multiplier 1,
    health 100, status PLAYING, no loss scheduled. -/
def initialAppState : AppState :=
  ⟨0, 0, 1, 100, GameStatus.PLAYING, 0⟩

/-- The scoring state after a list of frames, each carrying its judgement
    events, starting from a fresh session. -/
def reachScore (ticks : List (List ScoreEvent)) : AppState :=
  ticks.foldl scoreTick initialAppState

/-- startGame from the App: resets score, combo, multiplier and health,
    clears the hit and missed flag of every chart note (DEMO_CHART.forEach),
    and starts playing. The GameScene component stays mounted across
    sessions (it unmounts only in the LOADING status, which is never
    re-entered), so its activeNotesRef and nextNoteIndexRef keep their
    values: the scene state is carried over unchanged except for the shared
    chart notes. -/
def startGame (scene : SceneState) : AppState × SceneState :=
  (initialAppState,
   { scene with notes := scene.notes.map (fun n => { n with hit := false, missed := false }) })

/-- The gate visibility filter of GameScene:
    (g.time - currentTime) < 10 and (g.time - currentTime) > -5. -/
def visibleGates (gates : List GateData) (currentTime : ℚ) : List GateData :=
  gates.filter (fun g => decide (g.time - currentTime < 10 ∧ -5 < g.time - currentTime))

/-- The multiplier tier function as the claims state it: 1 for combo up to
    10, 2 for 11 to 20, 4 for 21 to 30, 8 from 31 on. Written from the
    words of the spec, to be compared with the code of handleNoteHit. -/
def specMultiplierOfCombo (c : ℕ) : ℚ :=
  if c ≤ 10 then 1 else if c ≤ 20 then 2 else if c ≤ 30 then 4 else 8

/-- Field-wise agreement of two notes on everything except tier and axis. -/
def cosmeticEqb (a b : NoteData) : Bool :=
  a.id == b.id && a.time == b.time && a.lineIndex == b.lineIndex &&
  a.lineLayer == b.lineLayer && a.type == b.type && a.cutDirection == b.cutDirection &&
  a.hit == b.hit && a.missed == b.missed && a.hitTime == b.hitTime

/-- Pointwise cosmeticEqb of two charts of equal length. -/
def chartsCosmeticEqb : List NoteData → List NoteData → Bool
  | [], [] => true
  | a :: as, b :: bs => cosmeticEqb a b && chartsCosmeticEqb as bs
  | _, _ => false

/-- Two scene states that agree except in the tier and axis of their notes. -/
def scenesCosmeticEq (s1 s2 : SceneState) : Prop :=
  chartsCosmeticEqb s1.notes s2.notes = true ∧ s1.active = s2.active ∧
  s1.nextNoteIndex = s2.nextNoteIndex

instance scenesCosmeticEqDecidable (s1 s2 : SceneState) :
    Decidable (scenesCosmeticEq s1 s2) :=
  inferInstanceAs (Decidable (chartsCosmeticEqb s1.notes s2.notes = true
    ∧ s1.active = s2.active ∧ s1.nextNoteIndex = s2.nextNoteIndex))

/-- Two judgement accumulators that agree except in note tier and axis. -/
def accCosmetic (a1 a2 : JudgeAcc) : Prop :=
  chartsCosmeticEqb a1.notes a2.notes = true ∧ a1.kept = a2.kept ∧ a1.events = a2.events

/-- A concrete chart note used to evaluate the judgement claims: lane 1,
    layer 0, left hand, any direction, arriving at time 0. -/
def probeNote : NoteData :=
  { id := "note-0", time := 0, lineIndex := 1, lineLayer := 0, type := HandType.left,
    cutDirection := CutDirection.ANY, tier := NoteTier.TIER_3,
    axis := NoteAxis.INSTITUTION }

/-- A later note of the same shape, for sorted-chart evaluations. -/
def probeNoteLate : NoteData := { probeNote with id := "note-1", time := 100 }

/-- A one-note scene whose note is already active (cursor past it). -/
def probeScene : SceneState := ⟨[probeNote], [0], 1⟩

/-- A fresh two-note scene: nothing active, cursor at the start. -/
def probeSceneFresh : SceneState := ⟨[probeNote, probeNoteLate], [], 0⟩

/-- A hand snapshot with the left hand 0.1 from the probe note target and
    moving at speed 2. -/
def probeHands : HandPositions :=
  { left := some ⟨-2/5, 4/5, 1/10⟩, right := none,
    leftVelocity := ⟨0, 0, 2⟩, rightVelocity := ⟨0, 0, 0⟩ }

/-- The probe note with a different tier and axis, identical otherwise. -/
def probeNoteAlt : NoteData :=
  { probeNote with tier := NoteTier.TIER_1, axis := NoteAxis.DISCOURSE }

/-- The probe scene built over the cosmetically different note. -/
def probeSceneAlt : SceneState := ⟨[probeNoteAlt], [0], 1⟩

/-! ### List access lemmas -/

theorem getSet_ne {α : Type} (l : List α) (i j : ℕ) (a : α) (hij : i ≠ j) :
    (l.set i a)[j]? = l[j]? := by
  induction l generalizing i j with
  | nil => simp
  | cons x t ih =>
    cases i with
    | zero =>
      cases j with
      | zero => exact absurd rfl hij
      | succ j => simp [List.set]
    | succ i =>
      cases j with
      | zero => simp [List.set]
      | succ j => simpa [List.set] using ih i j (fun hc => hij (by omega))

theorem getSet_self {α : Type} (l : List α) (j : ℕ) (a : α) (hj : j < l.length) :
    (l.set j a)[j]? = some a := by
  induction l generalizing j with
  | nil => simp at hj
  | cons x t ih =>
    cases j with
    | zero => simp [List.set]
    | succ j => simpa [List.set] using ih j (by simpa using hj)

theorem mem_of_mem_set {α : Type} (l : List α) (i : ℕ) (a b : α) (h : b ∈ l.set i a) :
    b ∈ l ∨ b = a := by
  induction l generalizing i with
  | nil => simp [List.set] at h
  | cons x t ih =>
    cases i with
    | zero =>
      rcases List.mem_cons.mp h with h1 | h1
      · exact Or.inr h1
      · exact Or.inl (List.mem_cons_of_mem x h1)
    | succ i =>
      rcases List.mem_cons.mp h with h1 | h1
      · exact Or.inl (h1 ▸ List.mem_cons_self x t)
      · rcases ih i h1 with h2 | h2
        · exact Or.inl (List.mem_cons_of_mem x h2)
        · exact Or.inr h2

/-! ### Sorted chart lemmas -/

theorem sortedB_tail (a : NoteData) (l : List NoteData)
    (h : sortedByTimeB (a :: l) = true) : sortedByTimeB l = true := by
  cases l with
  | nil => rfl
  | cons b t =>
    simp only [sortedByTimeB, Bool.and_eq_true, decide_eq_true_eq] at h
    exact h.2

theorem sortedB_head_le : ∀ (l : List NoteData) (a : NoteData),
    sortedByTimeB (a :: l) = true →
    ∀ (j : ℕ) (b : NoteData), l[j]? = some b → a.time ≤ b.time := by
  intro l
  induction l with
  | nil =>
    intro a _ j b hb
    simp at hb
  | cons x t ih =>
    intro a h j b hb
    have hax : a.time ≤ x.time := by
      simp only [sortedByTimeB, Bool.and_eq_true, decide_eq_true_eq] at h
      exact h.1
    cases j with
    | zero =>
      simp only [List.getElem?_cons_zero, Option.some_inj] at hb
      rw [← hb]
      exact hax
    | succ j =>
      exact le_trans hax (ih x (sortedB_tail a (x :: t) h) j b (by simpa using hb))

theorem sortedB_le : ∀ (l : List NoteData), sortedByTimeB l = true →
    ∀ (i j : ℕ), i ≤ j → ∀ (a b : NoteData),
    l[i]? = some a → l[j]? = some b → a.time ≤ b.time := by
  intro l
  induction l with
  | nil =>
    intro _ i j _ a b ha _
    simp at ha
  | cons x t ih =>
    intro h i j hij a b ha hb
    cases i with
    | zero =>
      simp only [List.getElem?_cons_zero, Option.some_inj] at ha
      cases j with
      | zero =>
        simp only [List.getElem?_cons_zero, Option.some_inj] at hb
        rw [← ha, ← hb]
      | succ j =>
        rw [← ha]
        exact sortedB_head_le t x h j b (by simpa using hb)
    | succ i =>
      cases j with
      | zero => omega
      | succ j =>
        exact ih (sortedB_tail x t h) i j (by omega) a b (by simpa using ha) (by simpa using hb)

/-! ### Spawn loop lemmas -/

theorem spawnRec_acc (fuel : ℕ) (notes : List NoteData) :
    ∀ (a : List ℕ) (nx : ℕ) (now : ℚ),
    (spawnRec fuel notes a nx now).1 = a ++ (spawnRec fuel notes [] nx now).1
  ∧ (spawnRec fuel notes a nx now).2 = (spawnRec fuel notes [] nx now).2 := by
  induction fuel with
  | zero => intro a nx now; simp [spawnRec]
  | succ f ih =>
    intro a nx now
    cases hnx : notes[nx]? with
    | none => simp [spawnRec, hnx]
    | some n =>
      by_cases hc : n.time - spawnAheadTime ≤ now
      · simp only [spawnRec, hnx, if_pos hc, List.nil_append]
        obtain ⟨ha1, ha2⟩ := ih (a ++ [nx]) (nx + 1) now
        obtain ⟨hb1, hb2⟩ := ih [nx] (nx + 1) now
        constructor
        · rw [ha1, hb1, List.append_assoc]
        · rw [ha2, hb2]
      · simp only [spawnRec, hnx, if_neg hc]
        exact ⟨by simp, by simp⟩

theorem spawnRec_cursor_le (fuel : ℕ) (notes : List NoteData) :
    ∀ (a : List ℕ) (nx : ℕ) (now : ℚ), nx ≤ (spawnRec fuel notes a nx now).2 := by
  induction fuel with
  | zero => intro a nx now; exact le_refl nx
  | succ f ih =>
    intro a nx now
    cases hnx : notes[nx]? with
    | none => simp [spawnRec, hnx]
    | some n =>
      by_cases hc : n.time - spawnAheadTime ≤ now
      · simp only [spawnRec, hnx, if_pos hc]
        exact le_trans (by omega) (ih (a ++ [nx]) (nx + 1) now)
      · simp only [spawnRec, hnx, if_neg hc]
        exact le_refl nx

theorem spawnRec_nil_range (fuel : ℕ) (notes : List NoteData) :
    ∀ (nx : ℕ) (now : ℚ),
    (spawnRec fuel notes [] nx now).1
      = List.range' nx ((spawnRec fuel notes [] nx now).2 - nx) := by
  induction fuel with
  | zero => intro nx now; simp [spawnRec]
  | succ f ih =>
    intro nx now
    cases hnx : notes[nx]? with
    | none => simp [spawnRec, hnx]
    | some n =>
      by_cases hc : n.time - spawnAheadTime ≤ now
      · simp only [spawnRec, hnx, if_pos hc, List.nil_append]
        obtain ⟨hb1, hb2⟩ := spawnRec_acc f notes [nx] (nx + 1) now
        rw [hb1, hb2, ih (nx + 1) now]
        have hcur := spawnRec_cursor_le f notes [] (nx + 1) now
        have heq : (spawnRec f notes [] (nx + 1) now).2 - nx
            = ((spawnRec f notes [] (nx + 1) now).2 - (nx + 1)) + 1 := by omega
        rw [heq, List.range'_succ]
        rfl
      · simp only [spawnRec, hnx, if_neg hc]
        show ([] : List ℕ) = List.range' nx (nx - nx)
        rw [Nat.sub_self]
        rfl

theorem spawnRec_sound (fuel : ℕ) (notes : List NoteData) :
    ∀ (nx : ℕ) (now : ℚ) (m : ℕ), m ∈ (spawnRec fuel notes [] nx now).1 →
    ∃ nm, notes[m]? = some nm ∧ nm.time - spawnAheadTime ≤ now := by
  induction fuel with
  | zero => intro nx now m hm; simp [spawnRec] at hm
  | succ f ih =>
    intro nx now m hm
    cases hnx : notes[nx]? with
    | none => simp only [spawnRec, hnx] at hm; simp at hm
    | some n =>
      by_cases hc : n.time - spawnAheadTime ≤ now
      · simp only [spawnRec, hnx, if_pos hc, List.nil_append] at hm
        rw [(spawnRec_acc f notes [nx] (nx + 1) now).1] at hm
        rcases List.mem_append.mp hm with h1 | h1
        · simp only [List.mem_singleton] at h1
          subst h1
          exact ⟨n, hnx, hc⟩
        · exact ih (nx + 1) now m h1
      · simp only [spawnRec, hnx, if_neg hc] at hm
        simp at hm

theorem spawnRec_stop (fuel : ℕ) (notes : List NoteData) :
    ∀ (a : List ℕ) (nx : ℕ) (now : ℚ), notes.length ≤ nx + fuel →
    (notes.length ≤ (spawnRec fuel notes a nx now).2
      ∨ ∃ nc, notes[(spawnRec fuel notes a nx now).2]? = some nc
          ∧ now < nc.time - spawnAheadTime) := by
  induction fuel with
  | zero =>
    intro a nx now hfuel
    exact Or.inl (by simpa [spawnRec] using hfuel)
  | succ f ih =>
    intro a nx now hfuel
    cases hnx : notes[nx]? with
    | none =>
      simp only [spawnRec, hnx]
      exact Or.inl (by simpa using List.getElem?_eq_none_iff.mp hnx)
    | some n =>
      by_cases hc : n.time - spawnAheadTime ≤ now
      · simp only [spawnRec, hnx, if_pos hc]
        exact ih (a ++ [nx]) (nx + 1) now (by omega)
      · simp only [spawnRec, hnx, if_neg hc]
        exact Or.inr ⟨n, rfl, by linarith⟩

theorem spawnRec_complete (fuel : ℕ) (notes : List NoteData) (nx : ℕ) (now : ℚ)
    (hsort : sortedByTimeB notes = true) (hfuel : notes.length ≤ nx + fuel)
    (m : ℕ) (hm : nx ≤ m) (nm : NoteData) (hget : notes[m]? = some nm)
    (hcond : nm.time - spawnAheadTime ≤ now) :
    m < (spawnRec fuel notes [] nx now).2 := by
  by_contra hlt
  push_neg at hlt
  rcases spawnRec_stop fuel notes [] nx now hfuel with hend | ⟨nc, hgetc, hcondc⟩
  · have : m < notes.length := by
      by_contra hml
      push_neg at hml
      rw [List.getElem?_eq_none_iff.mpr hml] at hget
      exact Option.noConfusion hget
    omega
  · have : nc.time ≤ nm.time :=
      sortedB_le notes hsort (spawnRec fuel notes [] nx now).2 m hlt nc nm hgetc hget
    linarith

/-! ### Spawn stage and promotion lemmas -/

theorem spawnStage_active_split (s : SceneState) (now : ℚ) :
    (spawnStage s now).1 = s.active ++ promotedByTick s now := by
  unfold promotedByTick spawnStage
  rw [(spawnRec_acc _ s.notes s.active s.nextNoteIndex now).1]
  rw [List.drop_left]

theorem promotedByTick_eq_nilrun (s : SceneState) (now : ℚ) :
    promotedByTick s now
      = (spawnRec (s.notes.length - s.nextNoteIndex) s.notes [] s.nextNoteIndex now).1 := by
  unfold promotedByTick spawnStage
  rw [(spawnRec_acc _ s.notes s.active s.nextNoteIndex now).1, List.drop_left]

theorem spawnStage_cursor_eq (s : SceneState) (now : ℚ) :
    (spawnStage s now).2
      = (spawnRec (s.notes.length - s.nextNoteIndex) s.notes [] s.nextNoteIndex now).2 := by
  unfold spawnStage
  exact (spawnRec_acc _ s.notes s.active s.nextNoteIndex now).2

theorem promotedByTick_eq_range (s : SceneState) (now : ℚ) :
    promotedByTick s now
      = List.range' s.nextNoteIndex ((spawnStage s now).2 - s.nextNoteIndex) := by
  rw [promotedByTick_eq_nilrun, spawnRec_nil_range, spawnStage_cursor_eq]

theorem spawnStage_cursor_le (s : SceneState) (now : ℚ) :
    s.nextNoteIndex ≤ (spawnStage s now).2 :=
  spawnRec_cursor_le _ s.notes s.active s.nextNoteIndex now

theorem promotedByTick_lb (s : SceneState) (now : ℚ) (k : ℕ)
    (hk : k ∈ promotedByTick s now) : s.nextNoteIndex ≤ k := by
  rw [promotedByTick_eq_range] at hk
  exact (List.mem_range'_1.mp hk).1

theorem promotedByTick_mem_iff (s : SceneState) (now : ℚ)
    (hsort : sortedByTimeB s.notes = true) (j : ℕ) :
    j ∈ promotedByTick s now
      ↔ (s.nextNoteIndex ≤ j
          ∧ ∃ n, s.notes[j]? = some n ∧ n.time - spawnAheadTime ≤ now) := by
  rw [promotedByTick_eq_nilrun]
  constructor
  · intro hj
    constructor
    · rw [spawnRec_nil_range, List.mem_range'_1] at hj
      exact hj.1
    · exact spawnRec_sound _ s.notes s.nextNoteIndex now j hj
  · rintro ⟨hle, n, hget, hcond⟩
    have hcomplete := spawnRec_complete (s.notes.length - s.nextNoteIndex) s.notes
      s.nextNoteIndex now hsort (by omega) j hle n hget hcond
    have hcur := spawnRec_cursor_le (s.notes.length - s.nextNoteIndex) s.notes []
      s.nextNoteIndex now
    rw [spawnRec_nil_range, List.mem_range'_1]
    exact ⟨hle, by omega⟩

/-! ### Judgement step lemmas -/

theorem judgeNoteStep_none (hands : HandPositions) (now : ℚ) (acc : JudgeAcc) (j : ℕ)
    (hn : acc.notes[j]? = none) :
    judgeNoteStep hands now acc j = { acc with kept := j :: acc.kept } := by
  unfold judgeNoteStep
  rw [hn]
  rfl

theorem judgeNoteStep_skip (hands : HandPositions) (now : ℚ) (acc : JudgeAcc) (j : ℕ)
    (note : NoteData) (hn : acc.notes[j]? = some note)
    (hres : (note.hit || note.missed) = true) :
    judgeNoteStep hands now acc j = { acc with kept := j :: acc.kept } := by
  unfold judgeNoteStep
  rw [hn]
  simp only [judgeNoteStepCore, if_pos hres]

theorem judgeNoteStep_pending (hands : HandPositions) (now : ℚ) (acc : JudgeAcc) (j : ℕ)
    (note : NoteData) (hn : acc.notes[j]? = some note)
    (hhit : note.hit = false) (hmiss : note.missed = false) :
    judgeNoteStep hands now acc j = judgeResolve acc j note now (judgeNote note hands now) := by
  have hres : ¬((note.hit || note.missed) = true) := by
    rw [hhit, hmiss]
    exact Bool.false_ne_true
  unfold judgeNoteStep
  rw [hn]
  simp only [judgeNoteStepCore, if_neg hres]

theorem judgeNoteStep_frame (hands : HandPositions) (now : ℚ) (acc : JudgeAcc) (k j : ℕ)
    (hkj : k ≠ j) :
    (judgeNoteStep hands now acc k).notes[j]? = acc.notes[j]?
  ∧ eventsFor j (judgeNoteStep hands now acc k).events = eventsFor j acc.events
  ∧ ((j ∈ (judgeNoteStep hands now acc k).kept) ↔ j ∈ acc.kept) := by
  have hne : j ≠ k := Ne.symm hkj
  cases hk : acc.notes[k]? with
  | none =>
    rw [judgeNoteStep_none hands now acc k hk]
    refine ⟨rfl, rfl, ?_⟩
    show (j ∈ k :: acc.kept) ↔ j ∈ acc.kept
    simp [List.mem_cons, hne]
  | some note =>
    by_cases hres : (note.hit || note.missed) = true
    · rw [judgeNoteStep_skip hands now acc k note hk hres]
      refine ⟨rfl, rfl, ?_⟩
      show (j ∈ k :: acc.kept) ↔ j ∈ acc.kept
      simp [List.mem_cons, hne]
    · have hflags : note.hit = false ∧ note.missed = false := by
        constructor <;> [cases hh : note.hit; cases hh : note.missed] <;>
          first | rfl | (exfalso; apply hres; rw [hh]; simp)
      rw [judgeNoteStep_pending hands now acc k note hk hflags.1 hflags.2]
      cases judgeNote note hands now with
      | stays =>
        refine ⟨rfl, rfl, ?_⟩
        show (j ∈ k :: acc.kept) ↔ j ∈ acc.kept
        simp [List.mem_cons, hne]
      | expired =>
        refine ⟨?_, ?_, ?_⟩
        · show (acc.notes.set k { note with missed := true })[j]? = acc.notes[j]?
          exact getSet_ne acc.notes k j _ hkj
        · show eventsFor j (acc.events ++ [GameEvent.noteMiss k]) = eventsFor j acc.events
          unfold eventsFor
          rw [List.filter_append]
          have hone : List.filter (fun e => eventIdx e == j) [GameEvent.noteMiss k] = [] := by
            simp [eventIdx, hkj]
          rw [hone, List.append_nil]
        · show (j ∈ acc.kept) ↔ j ∈ acc.kept
          exact Iff.rfl
      | struck g =>
        refine ⟨?_, ?_, ?_⟩
        · show (acc.notes.set k { note with hit := true, hitTime := some now })[j]?
              = acc.notes[j]?
          exact getSet_ne acc.notes k j _ hkj
        · show eventsFor j (acc.events ++ [GameEvent.noteHit k g]) = eventsFor j acc.events
          unfold eventsFor
          rw [List.filter_append]
          have hone : List.filter (fun e => eventIdx e == j) [GameEvent.noteHit k g] = [] := by
            simp [eventIdx, hkj]
          rw [hone, List.append_nil]
        · show (j ∈ acc.kept) ↔ j ∈ acc.kept
          exact Iff.rfl

theorem judgeNoteStep_resolved (hands : HandPositions) (now : ℚ) (acc : JudgeAcc) (k j : ℕ)
    (n : NoteData) (hn : acc.notes[j]? = some n) (hres : (n.hit || n.missed) = true) :
    (judgeNoteStep hands now acc k).notes[j]? = some n
  ∧ eventsFor j (judgeNoteStep hands now acc k).events = eventsFor j acc.events := by
  by_cases hkj : k = j
  · subst hkj
    rw [judgeNoteStep_skip hands now acc k n hn hres]
    exact ⟨hn, rfl⟩
  · obtain ⟨h1, h2, _⟩ := judgeNoteStep_frame hands now acc k j hkj
    exact ⟨h1.trans hn, h2⟩

/-! ### Judgement fold lemmas -/

theorem lt_length_of_getSome {α : Type} (l : List α) (j : ℕ) (a : α)
    (h : l[j]? = some a) : j < l.length := by
  by_contra hc
  push_neg at hc
  rw [List.getElem?_eq_none_iff.mpr hc] at h
  exact Option.noConfusion h

theorem judgeFold_frame (hands : HandPositions) (now : ℚ) :
    ∀ (l : List ℕ) (acc : JudgeAcc) (j : ℕ), j ∉ l →
    (l.foldl (judgeNoteStep hands now) acc).notes[j]? = acc.notes[j]?
  ∧ eventsFor j (l.foldl (judgeNoteStep hands now) acc).events = eventsFor j acc.events
  ∧ ((j ∈ (l.foldl (judgeNoteStep hands now) acc).kept) ↔ j ∈ acc.kept) := by
  intro l
  induction l with
  | nil => intro acc j _; exact ⟨rfl, rfl, Iff.rfl⟩
  | cons k rest ih =>
    intro acc j hj
    have hj2 : j ≠ k ∧ j ∉ rest := by simpa [List.mem_cons] using hj
    have hkj : k ≠ j := Ne.symm hj2.1
    simp only [List.foldl_cons]
    obtain ⟨a, b, c⟩ := ih (judgeNoteStep hands now acc k) j hj2.2
    obtain ⟨a0, b0, c0⟩ := judgeNoteStep_frame hands now acc k j hkj
    exact ⟨a.trans a0, b.trans b0, c.trans c0⟩

theorem judgeFold_resolved (hands : HandPositions) (now : ℚ) :
    ∀ (l : List ℕ) (acc : JudgeAcc) (j : ℕ) (n : NoteData),
    acc.notes[j]? = some n → (n.hit || n.missed) = true →
    (l.foldl (judgeNoteStep hands now) acc).notes[j]? = some n
  ∧ eventsFor j (l.foldl (judgeNoteStep hands now) acc).events = eventsFor j acc.events := by
  intro l
  induction l with
  | nil => intro acc j n hn _; exact ⟨hn, rfl⟩
  | cons k rest ih =>
    intro acc j n hn hres
    simp only [List.foldl_cons]
    obtain ⟨a0, b0⟩ := judgeNoteStep_resolved hands now acc k j n hn hres
    obtain ⟨a, b⟩ := ih (judgeNoteStep hands now acc k) j n a0 hres
    exact ⟨a, b.trans b0⟩

theorem eventsFor_append (j : ℕ) (e1 e2 : List GameEvent) :
    eventsFor j (e1 ++ e2) = eventsFor j e1 ++ eventsFor j e2 := by
  unfold eventsFor
  rw [List.filter_append]

theorem eventsFor_own (j : ℕ) (g : Bool) :
    eventsFor j [GameEvent.noteHit j g] = [GameEvent.noteHit j g]
  ∧ eventsFor j [GameEvent.noteMiss j] = [GameEvent.noteMiss j] := by
  constructor <;> simp [eventsFor, List.filter, eventIdx]

theorem judgeFold_judges (hands : HandPositions) (now : ℚ) :
    ∀ (l : List ℕ) (acc : JudgeAcc) (j : ℕ) (note : NoteData),
    j ∈ l → l.Nodup →
    acc.notes[j]? = some note → note.hit = false → note.missed = false →
    eventsFor j acc.events = [] → j ∉ acc.kept →
    (l.foldl (judgeNoteStep hands now) acc).notes[j]?
        = some (outcomeNote note now (judgeNote note hands now))
  ∧ eventsFor j (l.foldl (judgeNoteStep hands now) acc).events
        = outcomeEvents j (judgeNote note hands now)
  ∧ ((j ∈ (l.foldl (judgeNoteStep hands now) acc).kept)
        ↔ judgeNote note hands now = JudgeOutcome.stays) := by
  intro l
  induction l with
  | nil => intro acc j note hmem; exact absurd hmem (List.not_mem_nil j)
  | cons k rest ih =>
    intro acc j note hmem hnd hn hhit hmiss hev hkept
    have hlen : j < acc.notes.length := lt_length_of_getSome acc.notes j note hn
    by_cases hkj : k = j
    · subst hkj
      have hrest : k ∉ rest := (List.nodup_cons.mp hnd).1
      simp only [List.foldl_cons]
      rw [judgeNoteStep_pending hands now acc k note hn hhit hmiss]
      obtain ⟨fa, fb, fc⟩ := judgeFold_frame hands now rest
        (judgeResolve acc k note now (judgeNote note hands now)) k hrest
      cases hout : judgeNote note hands now with
      | stays =>
        rw [hout] at fa fb fc
        refine ⟨?_, ?_, ?_⟩
        · rw [fa]
          show acc.notes[k]? = some (outcomeNote note now JudgeOutcome.stays)
          exact hn
        · rw [fb]
          show eventsFor k acc.events = outcomeEvents k JudgeOutcome.stays
          exact hev
        · rw [fc]
          show (k ∈ k :: acc.kept) ↔ JudgeOutcome.stays = JudgeOutcome.stays
          simp [List.mem_cons]
      | expired =>
        rw [hout] at fa fb fc
        refine ⟨?_, ?_, ?_⟩
        · rw [fa]
          show (acc.notes.set k { note with missed := true })[k]?
              = some (outcomeNote note now JudgeOutcome.expired)
          exact getSet_self acc.notes k _ hlen
        · rw [fb]
          show eventsFor k (acc.events ++ [GameEvent.noteMiss k])
              = outcomeEvents k JudgeOutcome.expired
          rw [eventsFor_append, hev, (eventsFor_own k true).2]
          rfl
        · rw [fc]
          show (k ∈ acc.kept) ↔ JudgeOutcome.expired = JudgeOutcome.stays
          simp [hkept]
      | struck g =>
        rw [hout] at fa fb fc
        refine ⟨?_, ?_, ?_⟩
        · rw [fa]
          show (acc.notes.set k { note with hit := true, hitTime := some now })[k]?
              = some (outcomeNote note now (JudgeOutcome.struck g))
          exact getSet_self acc.notes k _ hlen
        · rw [fb]
          show eventsFor k (acc.events ++ [GameEvent.noteHit k g])
              = outcomeEvents k (JudgeOutcome.struck g)
          rw [eventsFor_append, hev, (eventsFor_own k g).1]
          rfl
        · rw [fc]
          show (k ∈ acc.kept) ↔ JudgeOutcome.struck g = JudgeOutcome.stays
          simp [hkept]
    · have hmem2 : j ∈ rest := by
        rcases List.mem_cons.mp hmem with h1 | h1
        · exact absurd h1.symm hkj
        · exact h1
      simp only [List.foldl_cons]
      obtain ⟨a0, b0, c0⟩ := judgeNoteStep_frame hands now acc k j hkj
      exact ih (judgeNoteStep hands now acc k) j note hmem2 (List.nodup_cons.mp hnd).2
        (a0.trans hn) hhit hmiss (b0.trans hev) (fun hc => hkept (c0.mp hc))

theorem judgeFold_oneEvent (hands : HandPositions) (now : ℚ) :
    ∀ (l : List ℕ) (acc : JudgeAcc) (j : ℕ),
    ((eventsFor j acc.events).length ≤ 1
      ∧ (1 ≤ (eventsFor j acc.events).length → resolvedAtJ acc.notes j)) →
    ((eventsFor j (l.foldl (judgeNoteStep hands now) acc).events).length ≤ 1
      ∧ (1 ≤ (eventsFor j (l.foldl (judgeNoteStep hands now) acc).events).length
          → resolvedAtJ (l.foldl (judgeNoteStep hands now) acc).notes j)) := by
  intro l
  induction l with
  | nil => intro acc j h; exact h
  | cons k rest ih =>
    intro acc j h
    simp only [List.foldl_cons]
    refine ih (judgeNoteStep hands now acc k) j ?_
    by_cases hkj : k = j
    · subst hkj
      cases hk : acc.notes[k]? with
      | none =>
        rw [judgeNoteStep_none hands now acc k hk]
        refine ⟨h.1, fun h1 => ?_⟩
        obtain ⟨n, hn, hres⟩ := h.2 h1
        exact ⟨n, hn, hres⟩
      | some note =>
        by_cases hres : (note.hit || note.missed) = true
        · rw [judgeNoteStep_skip hands now acc k note hk hres]
          refine ⟨h.1, fun h1 => ?_⟩
          obtain ⟨n, hn, hres2⟩ := h.2 h1
          exact ⟨n, hn, hres2⟩
        · have hflags : note.hit = false ∧ note.missed = false := by
            constructor <;> [cases hh : note.hit; cases hh : note.missed] <;>
              first | rfl | (exfalso; apply hres; rw [hh]; simp)
          have hlen : k < acc.notes.length := lt_length_of_getSome acc.notes k note hk
          have hev0 : (eventsFor k acc.events).length = 0 := by
            by_contra hc
            have h1 : 1 ≤ (eventsFor k acc.events).length := by omega
            obtain ⟨n, hn, hres2⟩ := h.2 h1
            rw [hk] at hn
            have : note = n := Option.some_inj.mp hn
            rw [← this] at hres2
            exact hres hres2
          have hevnil : eventsFor k acc.events = [] := List.length_eq_zero.mp hev0
          rw [judgeNoteStep_pending hands now acc k note hk hflags.1 hflags.2]
          cases hout : judgeNote note hands now with
          | stays =>
            refine ⟨h.1, fun h1 => ?_⟩
            obtain ⟨n, hn, hres2⟩ := h.2 h1
            exact ⟨n, hn, hres2⟩
          | expired =>
            refine ⟨?_, fun _ => ?_⟩
            · show (eventsFor k (acc.events ++ [GameEvent.noteMiss k])).length ≤ 1
              rw [eventsFor_append, hevnil, (eventsFor_own k true).2]
              rfl
            · show resolvedAtJ (acc.notes.set k { note with missed := true }) k
              exact ⟨{ note with missed := true }, getSet_self acc.notes k _ hlen, by simp⟩
          | struck g =>
            refine ⟨?_, fun _ => ?_⟩
            · show (eventsFor k (acc.events ++ [GameEvent.noteHit k g])).length ≤ 1
              rw [eventsFor_append, hevnil, (eventsFor_own k g).1]
              rfl
            · show resolvedAtJ (acc.notes.set k { note with hit := true, hitTime := some now }) k
              exact ⟨{ note with hit := true, hitTime := some now },
                getSet_self acc.notes k _ hlen, by simp⟩
    · obtain ⟨a0, b0, _⟩ := judgeNoteStep_frame hands now acc k j hkj
      rw [b0]
      refine ⟨h.1, fun h1 => ?_⟩
      obtain ⟨n, hn, hres⟩ := h.2 h1
      exact ⟨n, a0.trans hn, hres⟩

theorem judgeFold_kept_sublist (hands : HandPositions) (now : ℚ) :
    ∀ (l : List ℕ) (acc : JudgeAcc),
    ∃ sel, (l.foldl (judgeNoteStep hands now) acc).kept = sel ++ acc.kept
      ∧ sel.Sublist l.reverse := by
  intro l
  induction l with
  | nil => intro acc; exact ⟨[], rfl, by simp⟩
  | cons k rest ih =>
    intro acc
    obtain ⟨sel, hsel, hsub⟩ := ih (judgeNoteStep hands now acc k)
    have hkept : (judgeNoteStep hands now acc k).kept = k :: acc.kept
        ∨ (judgeNoteStep hands now acc k).kept = acc.kept := by
      unfold judgeNoteStep
      cases acc.notes[k]? with
      | none => exact Or.inl rfl
      | some note =>
        by_cases hres : (note.hit || note.missed) = true
        · rw [show judgeNoteStepCore hands now acc k (some note)
              = if (note.hit || note.missed) = true then { acc with kept := k :: acc.kept }
                else judgeResolve acc k note now (judgeNote note hands now) from rfl]
          rw [if_pos hres]
          exact Or.inl rfl
        · rw [show judgeNoteStepCore hands now acc k (some note)
              = if (note.hit || note.missed) = true then { acc with kept := k :: acc.kept }
                else judgeResolve acc k note now (judgeNote note hands now) from rfl]
          rw [if_neg hres]
          cases judgeNote note hands now with
          | stays => exact Or.inl rfl
          | expired => exact Or.inr rfl
          | struck g => exact Or.inr rfl
    rw [List.reverse_cons]
    simp only [List.foldl_cons]
    rcases hkept with hk | hk
    · refine ⟨sel ++ [k], ?_, List.Sublist.append hsub (List.Sublist.refl [k])⟩
      rw [hsel, hk, List.append_assoc]
      rfl
    · exact ⟨sel, by rw [hsel, hk], hsub.trans (List.sublist_append_left rest.reverse [k])⟩

theorem judgeFold_flagsOK (hands : HandPositions) (now : ℚ) :
    ∀ (l : List ℕ) (acc : JudgeAcc), flagsOK acc.notes →
    flagsOK (l.foldl (judgeNoteStep hands now) acc).notes := by
  intro l
  induction l with
  | nil => intro acc h; exact h
  | cons k rest ih =>
    intro acc h
    simp only [List.foldl_cons]
    refine ih (judgeNoteStep hands now acc k) ?_
    cases hk : acc.notes[k]? with
    | none => rw [judgeNoteStep_none hands now acc k hk]; exact h
    | some note =>
      by_cases hres : (note.hit || note.missed) = true
      · rw [judgeNoteStep_skip hands now acc k note hk hres]; exact h
      · have hflags : note.hit = false ∧ note.missed = false := by
          constructor <;> [cases hh : note.hit; cases hh : note.missed] <;>
            first | rfl | (exfalso; apply hres; rw [hh]; simp)
        rw [judgeNoteStep_pending hands now acc k note hk hflags.1 hflags.2]
        cases judgeNote note hands now with
        | stays => exact h
        | expired =>
          intro n hn
          show n.hit = false ∨ n.missed = false
          rcases mem_of_mem_set acc.notes k { note with missed := true } n hn with h1 | h1
          · exact h n h1
          · rw [h1]
            exact Or.inl hflags.1
        | struck g =>
          intro n hn
          show n.hit = false ∨ n.missed = false
          rcases mem_of_mem_set acc.notes k
              { note with hit := true, hitTime := some now } n hn with h1 | h1
          · exact h n h1
          · rw [h1]
            exact Or.inr hflags.2

/-! ### Tick and trace lemmas -/

theorem gameTick_unfold (s : SceneState) (hands : HandPositions) (now : ℚ) :
    gameTick s hands now
      = (⟨(judgeLoop s.notes (spawnStage s now).1 hands now).notes,
          (judgeLoop s.notes (spawnStage s now).1 hands now).kept,
          (spawnStage s now).2⟩,
         (judgeLoop s.notes (spawnStage s now).1 hands now).events) := rfl

theorem spawnStage_active_nodup (s : SceneState) (now : ℚ) (hinv : SceneInv s) :
    (spawnStage s now).1.Nodup := by
  rw [spawnStage_active_split, List.nodup_append]
  refine ⟨hinv.1, ?_, ?_⟩
  · rw [promotedByTick_eq_range]
    exact List.nodup_range' _ _
  · intro a ha hb
    have h1 := hinv.2 a ha
    have h2 := promotedByTick_lb s now a hb
    omega

theorem spawnStage_active_bound (s : SceneState) (now : ℚ) (hinv : SceneInv s) :
    ∀ k ∈ (spawnStage s now).1, k < (spawnStage s now).2 := by
  intro k hk
  rw [spawnStage_active_split] at hk
  rcases List.mem_append.mp hk with h1 | h1
  · exact lt_of_lt_of_le (hinv.2 k h1) (spawnStage_cursor_le s now)
  · rw [promotedByTick_eq_range] at h1
    have h2 := List.mem_range'_1.mp h1
    omega

theorem gameTick_note_outcome (s : SceneState) (hands : HandPositions) (now : ℚ)
    (j : ℕ) (note : NoteData) (hinv : SceneInv s) (hj : j ∈ s.active)
    (hn : s.notes[j]? = some note) (hhit : note.hit = false) (hmiss : note.missed = false) :
    (gameTick s hands now).1.notes[j]?
        = some (outcomeNote note now (judgeNote note hands now))
  ∧ eventsFor j (gameTick s hands now).2 = outcomeEvents j (judgeNote note hands now)
  ∧ ((j ∈ (gameTick s hands now).1.active)
        ↔ judgeNote note hands now = JudgeOutcome.stays) := by
  have hnodup : (spawnStage s now).1.Nodup := spawnStage_active_nodup s now hinv
  have hmem : j ∈ (spawnStage s now).1 := by
    rw [spawnStage_active_split]
    exact List.mem_append_left _ hj
  have hmemr : j ∈ (spawnStage s now).1.reverse := List.mem_reverse.mpr hmem
  have hnodupr : (spawnStage s now).1.reverse.Nodup := List.nodup_reverse.mpr hnodup
  rw [gameTick_unfold]
  unfold judgeLoop
  exact judgeFold_judges hands now ((spawnStage s now).1.reverse) ⟨s.notes, [], []⟩
    j note hmemr hnodupr hn hhit hmiss rfl (List.not_mem_nil j)

theorem gameTick_SceneInv (s : SceneState) (hands : HandPositions) (now : ℚ)
    (hinv : SceneInv s) : SceneInv (gameTick s hands now).1 := by
  obtain ⟨sel, hsel, hsub⟩ := judgeFold_kept_sublist hands now
    (spawnStage s now).1.reverse ⟨s.notes, [], []⟩
  have hsubl : sel.Sublist (spawnStage s now).1 := by
    simpa [List.reverse_reverse] using hsub
  constructor
  · show (judgeLoop s.notes (spawnStage s now).1 hands now).kept.Nodup
    unfold judgeLoop
    rw [hsel, List.append_nil]
    exact hsubl.nodup (spawnStage_active_nodup s now hinv)
  · intro k hk
    show k < (spawnStage s now).2
    have hk2 : k ∈ (judgeLoop s.notes (spawnStage s now).1 hands now).kept := hk
    unfold judgeLoop at hk2
    rw [hsel, List.append_nil] at hk2
    exact spawnStage_active_bound s now hinv k (hsubl.subset hk2)

theorem gameTick_cursor_mono (s : SceneState) (hands : HandPositions) (now : ℚ) :
    s.nextNoteIndex ≤ (gameTick s hands now).1.nextNoteIndex :=
  spawnStage_cursor_le s now

theorem gameTick_resolved (s : SceneState) (hands : HandPositions) (now : ℚ)
    (j : ℕ) (n : NoteData) (hn : s.notes[j]? = some n)
    (hres : (n.hit || n.missed) = true) :
    (gameTick s hands now).1.notes[j]? = some n
  ∧ eventsFor j (gameTick s hands now).2 = [] := by
  rw [gameTick_unfold]
  unfold judgeLoop
  obtain ⟨a, b⟩ := judgeFold_resolved hands now (spawnStage s now).1.reverse
    ⟨s.notes, [], []⟩ j n hn hres
  exact ⟨a, b⟩

theorem gameTick_oneEvent (s : SceneState) (hands : HandPositions) (now : ℚ) (j : ℕ) :
    (eventsFor j (gameTick s hands now).2).length ≤ 1
  ∧ (1 ≤ (eventsFor j (gameTick s hands now).2).length
      → resolvedAtJ (gameTick s hands now).1.notes j) := by
  rw [gameTick_unfold]
  unfold judgeLoop
  refine judgeFold_oneEvent hands now (spawnStage s now).1.reverse
    ⟨s.notes, [], []⟩ j ⟨?_, ?_⟩
  · simp [eventsFor]
  · intro h1
    simp [eventsFor] at h1

theorem gameTick_flagsOK (s : SceneState) (hands : HandPositions) (now : ℚ)
    (h : flagsOK s.notes) : flagsOK (gameTick s hands now).1.notes := by
  rw [gameTick_unfold]
  unfold judgeLoop
  exact judgeFold_flagsOK hands now (spawnStage s now).1.reverse ⟨s.notes, [], []⟩ h

theorem runTicks_resolved (inputs : List (HandPositions × ℚ)) :
    ∀ (s : SceneState) (j : ℕ) (n : NoteData),
    s.notes[j]? = some n → (n.hit || n.missed) = true →
    (runTicks s inputs).1.notes[j]? = some n
  ∧ eventsFor j (runTicks s inputs).2 = [] := by
  induction inputs with
  | nil => intro s j n hn _; exact ⟨hn, rfl⟩
  | cons p rest ih =>
    intro s j n hn hres
    obtain ⟨a0, b0⟩ := gameTick_resolved s p.1 p.2 j n hn hres
    obtain ⟨a, b⟩ := ih (gameTick s p.1 p.2).1 j n a0 hres
    refine ⟨a, ?_⟩
    show eventsFor j ((gameTick s p.1 p.2).2
        ++ (runTicks (gameTick s p.1 p.2).1 rest).2) = []
    rw [eventsFor_append, b0, b]
    rfl

theorem runTicks_oneEvent (inputs : List (HandPositions × ℚ)) :
    ∀ (s : SceneState) (j : ℕ), (eventsFor j (runTicks s inputs).2).length ≤ 1 := by
  induction inputs with
  | nil =>
    intro s j
    show (eventsFor j []).length ≤ 1
    simp [eventsFor]
  | cons p rest ih =>
    intro s j
    show (eventsFor j ((gameTick s p.1 p.2).2
        ++ (runTicks (gameTick s p.1 p.2).1 rest).2)).length ≤ 1
    rw [eventsFor_append, List.length_append]
    obtain ⟨h1, h2⟩ := gameTick_oneEvent s p.1 p.2 j
    by_cases hz : (eventsFor j (gameTick s p.1 p.2).2).length = 0
    · have h3 := ih (gameTick s p.1 p.2).1 j
      omega
    · have hone : 1 ≤ (eventsFor j (gameTick s p.1 p.2).2).length := by omega
      obtain ⟨n, hn, hres⟩ := h2 hone
      have h4 := (runTicks_resolved rest (gameTick s p.1 p.2).1 j n hn hres).2
      rw [h4]
      simp only [List.length_nil]
      omega

theorem runTicks_flagsOK (inputs : List (HandPositions × ℚ)) :
    ∀ (s : SceneState), flagsOK s.notes → flagsOK (runTicks s inputs).1.notes := by
  induction inputs with
  | nil => intro s h; exact h
  | cons p rest ih =>
    intro s h
    exact ih (gameTick s p.1 p.2).1 (gameTick_flagsOK s p.1 p.2 h)

theorem runTicks_SceneInv (inputs : List (HandPositions × ℚ)) :
    ∀ (s : SceneState), SceneInv s → SceneInv (runTicks s inputs).1 := by
  induction inputs with
  | nil => intro s h; exact h
  | cons p rest ih =>
    intro s h
    exact ih (gameTick s p.1 p.2).1 (gameTick_SceneInv s p.1 p.2 h)

theorem promotedDuring_lb (inputs : List (HandPositions × ℚ)) :
    ∀ (s : SceneState) (k : ℕ), k ∈ promotedDuring s inputs → s.nextNoteIndex ≤ k := by
  induction inputs with
  | nil => intro s k hk; simp [promotedDuring] at hk
  | cons p rest ih =>
    intro s k hk
    have hk2 : k ∈ promotedByTick s p.2 ++ promotedDuring (gameTick s p.1 p.2).1 rest := hk
    rcases List.mem_append.mp hk2 with h1 | h1
    · exact promotedByTick_lb s p.2 k h1
    · exact le_trans (gameTick_cursor_mono s p.1 p.2) (ih (gameTick s p.1 p.2).1 k h1)

theorem initScene_pending (chart : List NoteData) :
    ∀ n ∈ (initScene chart).notes, n.hit = false ∧ n.missed = false := by
  intro n hn
  obtain ⟨m, _, hm⟩ := List.mem_map.mp hn
  rw [← hm]
  exact ⟨rfl, rfl⟩

theorem startGame_pending (scene : SceneState) :
    ∀ n ∈ (startGame scene).2.notes, n.hit = false ∧ n.missed = false := by
  intro n hn
  obtain ⟨m, _, hm⟩ := List.mem_map.mp hn
  rw [← hm]
  exact ⟨rfl, rfl⟩

/-! ### Scoring lemmas -/

theorem applyScheduledEndGame_fields (a b : AppState) :
    (applyScheduledEndGame a b).health = b.health
  ∧ (applyScheduledEndGame a b).multiplier = b.multiplier
  ∧ (applyScheduledEndGame a b).combo = b.combo
  ∧ (applyScheduledEndGame a b).score = b.score := by
  unfold applyScheduledEndGame
  split_ifs <;> exact ⟨rfl, rfl, rfl, rfl⟩

theorem processScoreEvent_health_bounds (m : ℚ) (st : AppState) (e : ScoreEvent)
    (h0 : 0 ≤ st.health) (h1 : st.health ≤ 100) :
    0 ≤ (processScoreEvent m st e).health ∧ (processScoreEvent m st e).health ≤ 100 := by
  cases e with
  | hit g =>
    simp only [processScoreEvent, handleNoteHit]
    constructor <;> omega
  | miss =>
    simp only [processScoreEvent, handleNoteMiss]
    split_ifs <;> constructor <;> omega

theorem foldl_processScoreEvent_health_bounds (m : ℚ) (evs : List ScoreEvent)
    (st : AppState) (h0 : 0 ≤ st.health) (h1 : st.health ≤ 100) :
    0 ≤ (evs.foldl (processScoreEvent m) st).health ∧
      (evs.foldl (processScoreEvent m) st).health ≤ 100 := by
  induction evs generalizing st with
  | nil => exact ⟨h0, h1⟩
  | cons e rest ih =>
    obtain ⟨a, b⟩ := processScoreEvent_health_bounds m st e h0 h1
    exact ih _ a b

theorem scoreTick_health_bounds (st : AppState) (evs : List ScoreEvent)
    (h0 : 0 ≤ st.health) (h1 : st.health ≤ 100) :
    0 ≤ (scoreTick st evs).health ∧ (scoreTick st evs).health ≤ 100 := by
  unfold scoreTick
  split_ifs with hp
  · rw [(applyScheduledEndGame_fields st _).1]
    exact foldl_processScoreEvent_health_bounds st.multiplier evs st h0 h1
  · exact ⟨h0, h1⟩

theorem foldl_scoreTick_health_bounds (ticks : List (List ScoreEvent)) (st : AppState)
    (h0 : 0 ≤ st.health) (h1 : st.health ≤ 100) :
    0 ≤ (ticks.foldl scoreTick st).health ∧ (ticks.foldl scoreTick st).health ≤ 100 := by
  induction ticks generalizing st with
  | nil => exact ⟨h0, h1⟩
  | cons evs rest ih =>
    obtain ⟨a, b⟩ := scoreTick_health_bounds st evs h0 h1
    exact ih _ a b

theorem processScoreEvent_mult_spec (m : ℚ) (st : AppState) (e : ScoreEvent)
    (h : st.multiplier = specMultiplierOfCombo st.combo) :
    (processScoreEvent m st e).multiplier
      = specMultiplierOfCombo (processScoreEvent m st e).combo := by
  cases e with
  | hit g =>
    simp only [processScoreEvent, handleNoteHit]
    unfold specMultiplierOfCombo
    split_ifs <;> first | rfl | (exfalso; omega)
  | miss =>
    simp only [processScoreEvent, handleNoteMiss]
    unfold specMultiplierOfCombo
    split_ifs <;> first | rfl | (exfalso; omega)

theorem foldl_processScoreEvent_mult_spec (m : ℚ) (evs : List ScoreEvent) (st : AppState)
    (h : st.multiplier = specMultiplierOfCombo st.combo) :
    (evs.foldl (processScoreEvent m) st).multiplier
      = specMultiplierOfCombo (evs.foldl (processScoreEvent m) st).combo := by
  induction evs generalizing st with
  | nil => exact h
  | cons e rest ih => exact ih _ (processScoreEvent_mult_spec m st e h)

theorem scoreTick_mult_spec (st : AppState) (evs : List ScoreEvent)
    (h : st.multiplier = specMultiplierOfCombo st.combo) :
    (scoreTick st evs).multiplier = specMultiplierOfCombo (scoreTick st evs).combo := by
  unfold scoreTick
  split_ifs with hp
  · rw [(applyScheduledEndGame_fields st _).2.1, (applyScheduledEndGame_fields st _).2.2.1]
    exact foldl_processScoreEvent_mult_spec st.multiplier evs st h
  · exact h

theorem foldl_scoreTick_mult_spec (ticks : List (List ScoreEvent)) (st : AppState)
    (h : st.multiplier = specMultiplierOfCombo st.combo) :
    (ticks.foldl scoreTick st).multiplier
      = specMultiplierOfCombo (ticks.foldl scoreTick st).combo := by
  induction ticks generalizing st with
  | nil => exact h
  | cons evs rest ih => exact ih _ (scoreTick_mult_spec st evs h)

theorem handleNoteHit_lossTriggers (m : ℚ) (g : Bool) (st : AppState) :
    (handleNoteHit m g st).lossTriggers = st.lossTriggers := rfl

theorem scoreTick_single_hit_score (st : AppState) (g : Bool)
    (hp : st.status = GameStatus.PLAYING) :
    (scoreTick st [ScoreEvent.hit g]).score
      = st.score + (100 + (if g then (50:ℚ) else 0)) * st.multiplier := by
  unfold scoreTick
  rw [if_pos hp]
  rw [(applyScheduledEndGame_fields st _).2.2.2]
  rfl

/-! ### judgeNote characterization -/

theorem judgeNote_expired_of (note : NoteData) (hands : HandPositions) (now : ℚ)
    (h : MISS_Z < currentZ note now) :
    judgeNote note hands now = JudgeOutcome.expired := by
  unfold judgeNote
  rw [if_pos h]

theorem judgeNote_inWindow (note : NoteData) (hands : HandPositions) (now : ℚ)
    (hwin : PLAYER_Z - 3/2 < currentZ note now ∧ currentZ note now < PLAYER_Z + 1) :
    judgeNote note hands now = judgeSpatial note hands now (handPosOf hands note.type) := by
  have h2 := hwin.2
  have hnm : ¬ MISS_Z < currentZ note now := by
    unfold PLAYER_Z at h2
    unfold MISS_Z
    linarith
  unfold judgeNote
  rw [if_neg hnm, if_pos hwin]

theorem judgeSpatial_close (note : NoteData) (hands : HandPositions) (now : ℚ)
    (hp : Vec3) (hdist : dist2 hp (notePoint note now) < (4/5) ^ 2) :
    judgeSpatial note hands now (some hp)
      = JudgeOutcome.struck (goodCutOf note (handVelOf hands note.type)) := by
  simp only [judgeSpatial, if_pos hdist]

theorem judgeSpatial_far (note : NoteData) (hands : HandPositions) (now : ℚ)
    (hp : Vec3) (hdist : ¬ dist2 hp (notePoint note now) < (4/5) ^ 2) :
    judgeSpatial note hands now (some hp) = JudgeOutcome.stays := by
  simp only [judgeSpatial, if_neg hdist]

theorem goodCutOf_iff (note : NoteData) (v : Vec3) :
    goodCutOf note v = true
      ↔ (speedAtLeast v (3/2) = true
          ∧ (note.cutDirection = CutDirection.ANY
             ∨ dirDotAtLeast v (DIRECTION_VECTORS note.cutDirection) (3/10) = true)) := by
  cases hd : note.cutDirection <;>
    simp [goodCutOf, hd, Bool.and_eq_true] <;> tauto

/-! ### Claim C1 -/

/-- C1: for an active, still pending note whose travel position lies in the
    hit window around the interaction plane, if a sample exists for the
    assigned hand and its distance to the note target point (lane x,
    layer y, travel z) is below the hit radius 0.8, the note resolves to
    hit this tick (flag set, hitTime recorded, removed from the active set,
    one hit event emitted), with quality good exactly when hand speed meets
    the 1.5 threshold and, for a directional note, the normalized-velocity
    dot with the required direction meets the 0.3 threshold (an any
    direction note needs only the speed condition); both qualities are a
    hit; an absent sample or a distance at or beyond the radius leaves the
    note pending and active with no event. -/
theorem hit_detection_within_radius (s : SceneState) (hands : HandPositions) (now : ℚ)
    (j : ℕ) (note : NoteData)
    (hinv : SceneInv s) (hj : j ∈ s.active) (hn : s.notes[j]? = some note)
    (hhit : note.hit = false) (hmiss : note.missed = false)
    (hwin : PLAYER_Z - 3/2 < currentZ note now ∧ currentZ note now < PLAYER_Z + 1) :
    (∀ hp, handPosOf hands note.type = some hp →
      dist2 hp (notePoint note now) < (4/5) ^ 2 →
        (gameTick s hands now).1.notes[j]?
            = some { note with hit := true, hitTime := some now }
      ∧ j ∉ (gameTick s hands now).1.active
      ∧ eventsFor j (gameTick s hands now).2
            = [GameEvent.noteHit j (goodCutOf note (handVelOf hands note.type))]
      ∧ (goodCutOf note (handVelOf hands note.type) = true
          ↔ (speedAtLeast (handVelOf hands note.type) (3/2) = true
             ∧ (note.cutDirection = CutDirection.ANY
                ∨ dirDotAtLeast (handVelOf hands note.type)
                    (DIRECTION_VECTORS note.cutDirection) (3/10) = true))))
  ∧ ((handPosOf hands note.type = none
      ∨ ∃ hp, handPosOf hands note.type = some hp
          ∧ ¬ dist2 hp (notePoint note now) < (4/5) ^ 2) →
        (gameTick s hands now).1.notes[j]? = some note
      ∧ j ∈ (gameTick s hands now).1.active
      ∧ eventsFor j (gameTick s hands now).2 = []) := by
  constructor
  · intro hp hhand hdist
    have hout : judgeNote note hands now
        = JudgeOutcome.struck (goodCutOf note (handVelOf hands note.type)) := by
      rw [judgeNote_inWindow note hands now hwin, hhand]
      exact judgeSpatial_close note hands now hp hdist
    obtain ⟨a, b, c⟩ := gameTick_note_outcome s hands now j note hinv hj hn hhit hmiss
    rw [hout] at a b c
    refine ⟨a, ?_, b, goodCutOf_iff note _⟩
    intro hcmem
    exact JudgeOutcome.noConfusion (c.mp hcmem)
  · intro hcase
    have hout : judgeNote note hands now = JudgeOutcome.stays := by
      rw [judgeNote_inWindow note hands now hwin]
      rcases hcase with hnone | ⟨hp, hhand, hfar⟩
      · rw [hnone]
        rfl
      · rw [hhand]
        exact judgeSpatial_far note hands now hp hfar
    obtain ⟨a, b, c⟩ := gameTick_note_outcome s hands now j note hinv hj hn hhit hmiss
    rw [hout] at a b c
    exact ⟨a, c.mpr rfl, b⟩

/-- C1 witness: on the concrete probe scene at time 0, the left hand sample
    0.1 from the note target resolves the note to a hit with the goodCut
    flag of the probe velocity, and the note leaves the active set. -/
theorem hit_detection_within_radius_witness :
    eventsFor 0 (gameTick probeScene probeHands 0).2
      = [GameEvent.noteHit 0 (goodCutOf probeNote (handVelOf probeHands probeNote.type))]
  ∧ 0 ∉ (gameTick probeScene probeHands 0).1.active
  ∧ (gameTick probeScene probeHands 0).1.notes[0]?
      = some { probeNote with hit := true, hitTime := some 0 } := by
  have h := hit_detection_within_radius probeScene probeHands 0 0 probeNote
    (by decide) (by decide) rfl rfl rfl
    (by norm_num [currentZ, probeNote, PLAYER_Z, NOTE_SPEED])
  have h2 := h.1 ⟨-2/5, 4/5, 1/10⟩ rfl
    (by norm_num [dist2, norm2, dot, notePoint, probeNote, currentZ, laneX, layerY,
      LANE_X_POSITIONS, LAYER_Y_POSITIONS, LANE_WIDTH, PLAYER_Z, NOTE_SPEED])
  exact ⟨h2.2.2.1, h2.2.1, h2.1⟩

/-! ### Claim C2 -/

/-- C2: for an active, still pending note, the expiry check precedes hit
    detection: once the computed position
    currentZ = PLAYER_Z - (note.time - now) * NOTE_SPEED has advanced past
    MISS_Z, the tick marks the note missed, removes it from the active set
    and emits exactly one miss event, whatever the hand samples are (so the
    note cannot be hit that tick even with a hand in radius); the position
    is past the threshold as soon as now exceeds note.time + 5/12, so a
    never-hit note is resolved to missed at any such tick. -/
theorem expiry_before_hit_detection (s : SceneState) (hands : HandPositions) (now : ℚ)
    (j : ℕ) (note : NoteData)
    (hinv : SceneInv s) (hj : j ∈ s.active) (hn : s.notes[j]? = some note)
    (hhit : note.hit = false) (hmiss : note.missed = false)
    (hpast : note.time + 5/12 < now) :
    MISS_Z < currentZ note now
  ∧ (gameTick s hands now).1.notes[j]? = some { note with missed := true }
  ∧ j ∉ (gameTick s hands now).1.active
  ∧ eventsFor j (gameTick s hands now).2 = [GameEvent.noteMiss j] := by
  have hz : MISS_Z < currentZ note now := by
    unfold MISS_Z currentZ PLAYER_Z NOTE_SPEED
    linarith
  have hout := judgeNote_expired_of note hands now hz
  obtain ⟨a, b, c⟩ := gameTick_note_outcome s hands now j note hinv hj hn hhit hmiss
  rw [hout] at a b c
  refine ⟨hz, a, ?_, b⟩
  intro hcmem
  exact JudgeOutcome.noConfusion (c.mp hcmem)

/-- C2 witness: the probe note (time 0) at tick time 1 is past the miss
    threshold and resolves to missed with exactly one miss event, even
    though the probe hand is present. -/
theorem expiry_before_hit_detection_witness :
    MISS_Z < currentZ probeNote 1
  ∧ eventsFor 0 (gameTick probeScene probeHands 1).2 = [GameEvent.noteMiss 0]
  ∧ 0 ∉ (gameTick probeScene probeHands 1).1.active := by
  have h := expiry_before_hit_detection probeScene probeHands 1 0 probeNote
    (by decide) (by decide) rfl rfl rfl (by norm_num [probeNote])
  exact ⟨h.1, h.2.2.2, h.2.2.1⟩

/-! ### Claim C3 -/

/-- C3: on a chart sorted ascending by time, the spawn stage of a tick at
    instant now promotes exactly the notes with index at or past the cursor
    whose time satisfies note.time - spawnAheadTime <= now, where
    spawnAheadTime = distance(SPAWN_Z, PLAYER_Z) / NOTE_SPEED; the promoted
    indices are the contiguous range from the old cursor to the new cursor
    (so promotion happens in chart order, each note at most once), they are
    appended to the active set, the cursor never decreases, and the tick
    preserves the no-duplicate active-set invariant. -/
theorem spawn_scheduler_promotion (s : SceneState) (hands : HandPositions) (now : ℚ)
    (hsort : sortedByTimeB s.notes = true) (hinv : SceneInv s) :
    (∀ j, j ∈ promotedByTick s now
        ↔ (s.nextNoteIndex ≤ j
            ∧ ∃ n, s.notes[j]? = some n ∧ n.time - spawnAheadTime ≤ now))
  ∧ promotedByTick s now
      = List.range' s.nextNoteIndex ((spawnStage s now).2 - s.nextNoteIndex)
  ∧ (spawnStage s now).1 = s.active ++ promotedByTick s now
  ∧ s.nextNoteIndex ≤ (gameTick s hands now).1.nextNoteIndex
  ∧ SceneInv (gameTick s hands now).1
  ∧ spawnAheadTime = |SPAWN_Z - PLAYER_Z| / NOTE_SPEED :=
  ⟨fun j => promotedByTick_mem_iff s now hsort j, promotedByTick_eq_range s now,
    spawnStage_active_split s now, gameTick_cursor_mono s hands now,
    gameTick_SceneInv s hands now hinv, rfl⟩

/-- C3 witness: in the fresh two-note probe scene at time 0, index 0
    (time 0) satisfies the promotion condition and index membership, and
    the tick preserves the scene invariant. -/
theorem spawn_scheduler_promotion_witness :
    (0 ∈ promotedByTick probeSceneFresh 0
      ↔ (probeSceneFresh.nextNoteIndex ≤ 0
          ∧ ∃ n, probeSceneFresh.notes[0]? = some n ∧ n.time - spawnAheadTime ≤ 0))
  ∧ SceneInv (gameTick probeSceneFresh probeHands 0).1 := by
  have h := spawn_scheduler_promotion probeSceneFresh probeHands 0
    (by norm_num [sortedByTimeB, probeNote, probeNoteLate, probeSceneFresh])
    (by decide)
  exact ⟨h.1 0, h.2.2.2.2.1⟩

/-! ### Claim C4 -/

/-- C4: starting a session on a clean chart, every note receives at most
    one judgement event over any tick sequence; no reachable state sets
    both the hit and the missed flag of a note; and once a note is
    resolved, every later tick sequence leaves its entry unchanged and
    emits no further event for it (one-way transition, skipped forever). -/
theorem note_resolution_at_most_once (chart : List NoteData)
    (inputs1 inputs2 : List (HandPositions × ℚ)) (j : ℕ) :
    (eventsFor j (runTicks (initScene chart) inputs1).2).length ≤ 1
  ∧ (∀ n ∈ (runTicks (initScene chart) inputs1).1.notes,
        n.hit = false ∨ n.missed = false)
  ∧ (∀ n, (runTicks (initScene chart) inputs1).1.notes[j]? = some n
      → (n.hit || n.missed) = true
      → (runTicks (runTicks (initScene chart) inputs1).1 inputs2).1.notes[j]? = some n
        ∧ eventsFor j (runTicks (runTicks (initScene chart) inputs1).1 inputs2).2 = []) := by
  refine ⟨runTicks_oneEvent inputs1 (initScene chart) j, ?_, ?_⟩
  · exact runTicks_flagsOK inputs1 (initScene chart)
      (fun n hn => Or.inl (initScene_pending chart n hn).1)
  · intro n hn hres
    exact runTicks_resolved inputs2 (runTicks (initScene chart) inputs1).1 j n hn hres

/-! ### Claim C10 -/

/-- C10: startGame resets the scoring state (score 0, combo 0, multiplier 1,
    health 100, status PLAYING) and clears the hit and missed flags of every
    chart note, but the still-mounted scene keeps its active set and its
    spawn cursor; consequently any chart index below the retained cursor is
    never promoted to the active set by any tick of the new session. -/
theorem restart_keeps_cursor (scene : SceneState) (j : ℕ)
    (hj : j < scene.nextNoteIndex) (inputs : List (HandPositions × ℚ)) :
    (startGame scene).1 = initialAppState
  ∧ (startGame scene).2.active = scene.active
  ∧ (startGame scene).2.nextNoteIndex = scene.nextNoteIndex
  ∧ (∀ n ∈ (startGame scene).2.notes, n.hit = false ∧ n.missed = false)
  ∧ j ∉ promotedDuring (startGame scene).2 inputs := by
  refine ⟨rfl, rfl, rfl, startGame_pending scene, ?_⟩
  intro hmem
  have h1 := promotedDuring_lb inputs (startGame scene).2 j hmem
  have h2 : (startGame scene).2.nextNoteIndex = scene.nextNoteIndex := rfl
  omega

/-- C10 witness: for the probe scene with cursor 1, startGame keeps the
    cursor and index 0 is not promoted in the restarted session. -/
theorem restart_keeps_cursor_witness :
    (startGame probeScene).2.nextNoteIndex = probeScene.nextNoteIndex
  ∧ 0 ∉ promotedDuring (startGame probeScene).2 [(probeHands, 0)] := by
  have h := restart_keeps_cursor probeScene 0 (by decide) [(probeHands, 0)]
  exact ⟨h.2.2.1, h.2.2.2.2⟩

/-! ### Claim C6 -/

/-- C6: each hit increments combo by one, and the multiplier becomes the
    four-tier step function of the resulting combo: 1 for combo up to 10,
    2 for 11 to 20, 4 for 21 to 30, 8 from 31 on (thresholds 0/11/21/31);
    every miss resets combo to 0 and multiplier to 1, whatever the prior
    combo was. -/
theorem combo_multiplier_step_function (m : ℚ) (st : AppState) (g : Bool) :
    (handleNoteHit m g st).combo = st.combo + 1
  ∧ (handleNoteHit m g st).multiplier = specMultiplierOfCombo (st.combo + 1)
  ∧ (handleNoteMiss st).combo = 0
  ∧ (handleNoteMiss st).multiplier = 1 := by
  refine ⟨rfl, ?_, rfl, rfl⟩
  simp only [handleNoteHit]
  unfold specMultiplierOfCombo
  split_ifs <;> first | rfl | (exfalso; omega)

/-! ### Claim C7 -/

/-- C7 counterexample: starting a fresh session and landing ten good hits in
    ten frames leaves combo 10 and multiplier 1; the eleventh good hit
    raises the combo to 11 (multiplier tier 2), yet the score it awards is
    150 times the multiplier in effect before that hit (1), not 150 times
    the tier implied by the combo that includes it (2). -/
theorem score_stale_multiplier_cex :
    (scoreTick (reachScore (List.replicate 10 [ScoreEvent.hit true]))
        [ScoreEvent.hit true]).score
      ≠ (reachScore (List.replicate 10 [ScoreEvent.hit true])).score
        + (100 + 50) * specMultiplierOfCombo
            ((reachScore (List.replicate 10 [ScoreEvent.hit true])).combo + 1) := by
  have hst : (reachScore (List.replicate 10 [ScoreEvent.hit true])).status
      = GameStatus.PLAYING := rfl
  have hm : (reachScore (List.replicate 10 [ScoreEvent.hit true])).multiplier = 1 := rfl
  have hc : (reachScore (List.replicate 10 [ScoreEvent.hit true])).combo = 10 := rfl
  rw [scoreTick_single_hit_score _ true hst, hm, hc]
  have hs : specMultiplierOfCombo (10 + 1) = 2 := by norm_num [specMultiplierOfCombo]
  rw [hs]
  intro h
  rw [if_pos rfl] at h
  linarith

/-- C7 amended: the points a hit adds equal base 100 times (1 plus 0.5 for a
    good hit, 0 for a weak one) times the multiplier captured before the
    event, i.e. the multiplier in effect prior to the combo update caused by
    this same hit; in every reachable scoring state the multiplier equals the
    step function of the combo, so that captured value is the tier of the
    combo excluding this hit. For a frame carrying one hit from a PLAYING
    state, the award therefore uses exactly the pre-frame multiplier. -/
theorem score_award_amended (st : AppState) (g : Bool) (m : ℚ)
    (ticks : List (List ScoreEvent)) :
    (handleNoteHit m g st).score = st.score + (100 + (if g then (50:ℚ) else 0)) * m
  ∧ (reachScore ticks).multiplier = specMultiplierOfCombo (reachScore ticks).combo
  ∧ (scoreTick { st with status := GameStatus.PLAYING } [ScoreEvent.hit g]).score
      = st.score + (100 + (if g then (50:ℚ) else 0)) * st.multiplier := by
  refine ⟨rfl, ?_, ?_⟩
  · exact foldl_scoreTick_mult_spec ticks initialAppState rfl
  · exact scoreTick_single_hit_score { st with status := GameStatus.PLAYING } g rfl

/-! ### Claim C5 -/

/-- C5 counterexample: six misses in one frame leave health at 10 with no
    loss scheduled; a following frame with two misses drives health to zero
    at its first miss, scheduling endGame(false), and its second miss,
    processed in the same frame while health is floored at zero, schedules
    endGame(false) again: the loss outcome is triggered twice, not exactly
    once. -/
theorem loss_trigger_twice_cex :
    (reachScore [List.replicate 6 ScoreEvent.miss,
        [ScoreEvent.miss, ScoreEvent.miss]]).lossTriggers = 2 := by
  rfl

/-- C5 amended: health stays within 0 and 100 in every reachable scoring
    state; a hit adds 2 capped at 100 and a miss subtracts 15 floored at 0;
    once the status has left PLAYING no further events are processed, so the
    loss cannot be re-triggered on any later frame; however a miss event
    schedules the loss trigger exactly when the decremented health is at or
    below zero, so further misses inside the frame where health first
    reaches zero re-trigger it (the resulting status transition is
    idempotent). -/
theorem health_bounds_loss_amended (ticks : List (List ScoreEvent)) (st : AppState)
    (evs : List ScoreEvent) (g : Bool) (m : ℚ) :
    (0 ≤ (reachScore ticks).health ∧ (reachScore ticks).health ≤ 100)
  ∧ scoreTick { st with status := GameStatus.GAME_OVER } evs
      = { st with status := GameStatus.GAME_OVER }
  ∧ (handleNoteHit m g st).health = min 100 (st.health + 2)
  ∧ (handleNoteMiss st).health = max 0 (st.health - 15)
  ∧ (handleNoteMiss st).lossTriggers
      = st.lossTriggers + (if st.health - 15 ≤ 0 then 1 else 0) := by
  refine ⟨?_, ?_, rfl, ?_, ?_⟩
  · exact foldl_scoreTick_health_bounds ticks initialAppState (by decide) (by decide)
  · simp [scoreTick]
  · simp only [handleNoteMiss]
    split_ifs <;> omega
  · simp only [handleNoteMiss]
    split_ifs <;> omega

/-! ### Claim C8 -/

/-- C8 counterexample: at timeline instant 2 the gate list of the game
    contains gate-1 with time 12, and 2 lies within the closed interval from
    12 - 10 to 12 + 5, yet the visible set is empty: the claimed closed
    visibility interval does not match the strict comparison of the code at
    the boundary. -/
theorem gate_window_boundary_cex :
    (⟨"gate-1", 12, "SCANDAL", "The Awakening", GateKind.NEGATIVE⟩ : GateData) ∈ GATES
  ∧ ((12:ℚ) - 10 ≤ 2 ∧ (2:ℚ) ≤ 12 + 5)
  ∧ (⟨"gate-1", 12, "SCANDAL", "The Awakening", GateKind.NEGATIVE⟩ : GateData)
      ∉ visibleGates GATES 2 := by
  refine ⟨?_, ⟨by norm_num, by norm_num⟩, ?_⟩
  · simp [GATES]
  · intro hmem
    have hcond := (List.mem_filter.mp hmem).2
    simp only [decide_eq_true_eq] at hcond
    have := hcond.1
    norm_num at this

/-- C8 amended: a gate is visible exactly when now lies within the OPEN
    interval from gate.time - 10 to gate.time + 5 (aheadWindow 10,
    behindWindow 5, both bounds strict); the visible set is a pure function
    of now and the gate list, fully characterized by this membership
    equivalence. -/
theorem gate_visibility_amended (gates : List GateData) (t : ℚ) (g : GateData) :
    g ∈ visibleGates gates t ↔ g ∈ gates ∧ g.time - 10 < t ∧ t < g.time + 5 := by
  unfold visibleGates
  simp only [List.mem_filter, decide_eq_true_eq]
  constructor
  · rintro ⟨h1, h2, h3⟩
    exact ⟨h1, by linarith, by linarith⟩
  · rintro ⟨h1, h2, h3⟩
    exact ⟨h1, by linarith, by linarith⟩

/-! ### Cosmetic (tier and axis) non-interference lemmas -/

theorem cosmeticEqb_eq_update (a b : NoteData) (h : cosmeticEqb a b = true) :
    b = { a with tier := b.tier, axis := b.axis } := by
  cases a
  cases b
  simp only [cosmeticEqb, Bool.and_eq_true, beq_iff_eq] at h
  simp only [NoteData.mk.injEq]
  simp_all

theorem judgeNote_tier_axis (n : NoteData) (t : NoteTier) (ax : NoteAxis)
    (hands : HandPositions) (now : ℚ) :
    judgeNote { n with tier := t, axis := ax } hands now = judgeNote n hands now := rfl

theorem cosmeticEqb_update_missed (a b : NoteData) (h : cosmeticEqb a b = true) :
    cosmeticEqb { a with missed := true } { b with missed := true } = true := by
  rw [cosmeticEqb_eq_update a b h]
  cases a
  simp [cosmeticEqb]

theorem cosmeticEqb_update_hit (a b : NoteData) (now : ℚ) (h : cosmeticEqb a b = true) :
    cosmeticEqb { a with hit := true, hitTime := some now }
      { b with hit := true, hitTime := some now } = true := by
  rw [cosmeticEqb_eq_update a b h]
  cases a
  simp [cosmeticEqb]

theorem cosmeticEqb_reset (a b : NoteData) (h : cosmeticEqb a b = true) :
    cosmeticEqb { a with hit := false, missed := false }
      { b with hit := false, missed := false } = true := by
  rw [cosmeticEqb_eq_update a b h]
  cases a
  simp [cosmeticEqb]

theorem chartsCosmetic_length : ∀ (c1 c2 : List NoteData),
    chartsCosmeticEqb c1 c2 = true → c1.length = c2.length := by
  intro c1
  induction c1 with
  | nil =>
    intro c2 h
    cases c2 with
    | nil => rfl
    | cons b bs => simp [chartsCosmeticEqb] at h
  | cons a as ih =>
    intro c2 h
    cases c2 with
    | nil => simp [chartsCosmeticEqb] at h
    | cons b bs =>
      have h2 : cosmeticEqb a b = true ∧ chartsCosmeticEqb as bs = true := by
        simpa [chartsCosmeticEqb, Bool.and_eq_true] using h
      simp [ih bs h2.2]

theorem chartsCosmetic_get : ∀ (c1 c2 : List NoteData),
    chartsCosmeticEqb c1 c2 = true → ∀ (j : ℕ),
    (c1[j]? = none ∧ c2[j]? = none)
  ∨ ∃ n1 n2, c1[j]? = some n1 ∧ c2[j]? = some n2 ∧ cosmeticEqb n1 n2 = true := by
  intro c1
  induction c1 with
  | nil =>
    intro c2 h j
    cases c2 with
    | nil => exact Or.inl ⟨by simp, by simp⟩
    | cons b bs => simp [chartsCosmeticEqb] at h
  | cons a as ih =>
    intro c2 h j
    cases c2 with
    | nil => simp [chartsCosmeticEqb] at h
    | cons b bs =>
      have h2 : cosmeticEqb a b = true ∧ chartsCosmeticEqb as bs = true := by
        simpa [chartsCosmeticEqb, Bool.and_eq_true] using h
      cases j with
      | zero => exact Or.inr ⟨a, b, by simp, by simp, h2.1⟩
      | succ j =>
        rcases ih bs h2.2 j with ⟨e1, e2⟩ | ⟨n1, n2, e1, e2, e3⟩
        · exact Or.inl ⟨by simpa using e1, by simpa using e2⟩
        · exact Or.inr ⟨n1, n2, by simpa using e1, by simpa using e2, e3⟩

theorem chartsCosmetic_set : ∀ (c1 c2 : List NoteData),
    chartsCosmeticEqb c1 c2 = true → ∀ (j : ℕ) (n1 n2 : NoteData),
    cosmeticEqb n1 n2 = true →
    chartsCosmeticEqb (c1.set j n1) (c2.set j n2) = true := by
  intro c1
  induction c1 with
  | nil =>
    intro c2 h j n1 n2 hn
    cases c2 with
    | nil => simpa [List.set] using h
    | cons b bs => simp [chartsCosmeticEqb] at h
  | cons a as ih =>
    intro c2 h j n1 n2 hn
    cases c2 with
    | nil => simp [chartsCosmeticEqb] at h
    | cons b bs =>
      have h2 : cosmeticEqb a b = true ∧ chartsCosmeticEqb as bs = true := by
        simpa [chartsCosmeticEqb, Bool.and_eq_true] using h
      cases j with
      | zero =>
        simp only [List.set]
        simp [chartsCosmeticEqb, Bool.and_eq_true, hn, h2.2]
      | succ j =>
        simp only [List.set]
        simp [chartsCosmeticEqb, Bool.and_eq_true, h2.1, ih bs h2.2 j n1 n2 hn]

theorem spawnRec_cosmetic : ∀ (fuel : ℕ) (c1 c2 : List NoteData),
    chartsCosmeticEqb c1 c2 = true →
    ∀ (a : List ℕ) (nx : ℕ) (now : ℚ),
    spawnRec fuel c1 a nx now = spawnRec fuel c2 a nx now := by
  intro fuel
  induction fuel with
  | zero => intro c1 c2 _ a nx now; rfl
  | succ f ih =>
    intro c1 c2 h a nx now
    rcases chartsCosmetic_get c1 c2 h nx with ⟨e1, e2⟩ | ⟨n1, n2, e1, e2, e3⟩
    · simp only [spawnRec, e1, e2]
    · have ht : n1.time = n2.time := by
        rw [cosmeticEqb_eq_update n1 n2 e3]
      simp only [spawnRec, e1, e2, ht]
      by_cases hc : n2.time - spawnAheadTime ≤ now
      · rw [if_pos hc, if_pos hc]
        exact ih c1 c2 h (a ++ [nx]) (nx + 1) now
      · rw [if_neg hc, if_neg hc]

theorem judgeNoteStep_cosmetic (hands : HandPositions) (now : ℚ)
    (a1 a2 : JudgeAcc) (k : ℕ) (h : accCosmetic a1 a2) :
    accCosmetic (judgeNoteStep hands now a1 k) (judgeNoteStep hands now a2 k) := by
  obtain ⟨hn, hk, he⟩ := h
  rcases chartsCosmetic_get a1.notes a2.notes hn k with ⟨e1, e2⟩ | ⟨n1, n2, e1, e2, e3⟩
  · rw [judgeNoteStep_none hands now a1 k e1, judgeNoteStep_none hands now a2 k e2]
    exact ⟨hn, by rw [hk], he⟩
  · have hupd := cosmeticEqb_eq_update n1 n2 e3
    have hhit2 : n2.hit = n1.hit := by rw [hupd]
    have hmiss2 : n2.missed = n1.missed := by rw [hupd]
    by_cases hres : (n1.hit || n1.missed) = true
    · have hres2 : (n2.hit || n2.missed) = true := by rw [hhit2, hmiss2]; exact hres
      rw [judgeNoteStep_skip hands now a1 k n1 e1 hres,
        judgeNoteStep_skip hands now a2 k n2 e2 hres2]
      exact ⟨hn, by rw [hk], he⟩
    · have hf1 : n1.hit = false ∧ n1.missed = false := by
        constructor <;> [cases hh : n1.hit; cases hh : n1.missed] <;>
          first | rfl | (exfalso; apply hres; rw [hh]; simp)
      have hf2 : n2.hit = false ∧ n2.missed = false := by
        rw [hhit2, hmiss2]
        exact hf1
      rw [judgeNoteStep_pending hands now a1 k n1 e1 hf1.1 hf1.2,
        judgeNoteStep_pending hands now a2 k n2 e2 hf2.1 hf2.2]
      have hjudge : judgeNote n2 hands now = judgeNote n1 hands now := by
        rw [hupd]
        exact judgeNote_tier_axis n1 n2.tier n2.axis hands now
      rw [hjudge]
      cases hout : judgeNote n1 hands now with
      | stays =>
        refine ⟨hn, ?_, ?_⟩
        · show k :: a1.kept = k :: a2.kept
          rw [hk]
        · show a1.events = a2.events
          exact he
      | expired =>
        refine ⟨?_, ?_, ?_⟩
        · show chartsCosmeticEqb (a1.notes.set k { n1 with missed := true })
              (a2.notes.set k { n2 with missed := true }) = true
          exact chartsCosmetic_set a1.notes a2.notes hn k _ _
            (cosmeticEqb_update_missed n1 n2 e3)
        · show a1.kept = a2.kept
          exact hk
        · show a1.events ++ [GameEvent.noteMiss k] = a2.events ++ [GameEvent.noteMiss k]
          rw [he]
      | struck g =>
        refine ⟨?_, ?_, ?_⟩
        · show chartsCosmeticEqb (a1.notes.set k { n1 with hit := true, hitTime := some now })
              (a2.notes.set k { n2 with hit := true, hitTime := some now }) = true
          exact chartsCosmetic_set a1.notes a2.notes hn k _ _
            (cosmeticEqb_update_hit n1 n2 now e3)
        · show a1.kept = a2.kept
          exact hk
        · show a1.events ++ [GameEvent.noteHit k g] = a2.events ++ [GameEvent.noteHit k g]
          rw [he]

theorem judgeFold_cosmetic (hands : HandPositions) (now : ℚ) :
    ∀ (l : List ℕ) (a1 a2 : JudgeAcc), accCosmetic a1 a2 →
    accCosmetic (l.foldl (judgeNoteStep hands now) a1)
      (l.foldl (judgeNoteStep hands now) a2) := by
  intro l
  induction l with
  | nil => intro a1 a2 h; exact h
  | cons k rest ih =>
    intro a1 a2 h
    simp only [List.foldl_cons]
    exact ih _ _ (judgeNoteStep_cosmetic hands now a1 a2 k h)

theorem gameTick_cosmetic (s1 s2 : SceneState) (hands : HandPositions) (now : ℚ)
    (h : scenesCosmeticEq s1 s2) :
    (gameTick s1 hands now).2 = (gameTick s2 hands now).2
  ∧ scenesCosmeticEq (gameTick s1 hands now).1 (gameTick s2 hands now).1 := by
  obtain ⟨hn, ha, hc⟩ := h
  have hspawn : spawnStage s2 now = spawnStage s1 now := by
    unfold spawnStage
    rw [ha, hc, chartsCosmetic_length s1.notes s2.notes hn]
    exact (spawnRec_cosmetic _ s1.notes s2.notes hn s2.active s2.nextNoteIndex now).symm
  have hloop := judgeFold_cosmetic hands now (spawnStage s1 now).1.reverse
    ⟨s1.notes, [], []⟩ ⟨s2.notes, [], []⟩ ⟨hn, rfl, rfl⟩
  obtain ⟨ln, lk, le⟩ := hloop
  rw [gameTick_unfold, gameTick_unfold, hspawn]
  unfold judgeLoop
  exact ⟨le, ln, lk, rfl⟩

theorem runTicks_cosmetic (inputs : List (HandPositions × ℚ)) :
    ∀ (s1 s2 : SceneState), scenesCosmeticEq s1 s2 →
    (runTicks s1 inputs).2 = (runTicks s2 inputs).2
  ∧ scenesCosmeticEq (runTicks s1 inputs).1 (runTicks s2 inputs).1 := by
  induction inputs with
  | nil => intro s1 s2 h; exact ⟨rfl, h⟩
  | cons p rest ih =>
    intro s1 s2 h
    obtain ⟨hev, hsc⟩ := gameTick_cosmetic s1 s2 p.1 p.2 h
    obtain ⟨hev2, hsc2⟩ := ih (gameTick s1 p.1 p.2).1 (gameTick s2 p.1 p.2).1 hsc
    constructor
    · show (gameTick s1 p.1 p.2).2 ++ (runTicks (gameTick s1 p.1 p.2).1 rest).2
          = (gameTick s2 p.1 p.2).2 ++ (runTicks (gameTick s2 p.1 p.2).1 rest).2
      rw [hev, hev2]
    · exact hsc2

theorem chartsCosmetic_reset : ∀ (c1 c2 : List NoteData),
    chartsCosmeticEqb c1 c2 = true →
    chartsCosmeticEqb (c1.map (fun n => { n with hit := false, missed := false }))
      (c2.map (fun n => { n with hit := false, missed := false })) = true := by
  intro c1
  induction c1 with
  | nil =>
    intro c2 h
    cases c2 with
    | nil => rfl
    | cons b bs => simp [chartsCosmeticEqb] at h
  | cons a as ih =>
    intro c2 h
    cases c2 with
    | nil => simp [chartsCosmeticEqb] at h
    | cons b bs =>
      have h2 : cosmeticEqb a b = true ∧ chartsCosmeticEqb as bs = true := by
        simpa [chartsCosmeticEqb, Bool.and_eq_true] using h
      simp only [List.map_cons]
      simp [chartsCosmeticEqb, Bool.and_eq_true, cosmeticEqb_reset a b h2.1, ih bs h2.2]

theorem initScene_cosmetic (c1 c2 : List NoteData)
    (h : chartsCosmeticEqb c1 c2 = true) :
    scenesCosmeticEq (initScene c1) (initScene c2) :=
  ⟨chartsCosmetic_reset c1 c2 h, rfl, rfl⟩

/-! ### Claim C9 -/

/-- C9: notes that differ only in tier and axis are judged identically: for
    scene states that agree except in those two fields, a tick produces
    literally the same judgement events (same indices, same good or weak
    quality, same tick) and again cosmetically related states; the same
    holds for whole tick sequences, and for sessions started on charts that
    differ only in tier and axis; moreover the per-note judgement function
    is invariant under changing tier and axis, so neither field influences
    the hit-test geometry or the resolution decision. -/
theorem tier_axis_noninterference (s1 s2 : SceneState) (hands : HandPositions)
    (now : ℚ) (inputs : List (HandPositions × ℚ)) (c1 c2 : List NoteData)
    (h : scenesCosmeticEq s1 s2) (hcharts : chartsCosmeticEqb c1 c2 = true) :
    (gameTick s1 hands now).2 = (gameTick s2 hands now).2
  ∧ scenesCosmeticEq (gameTick s1 hands now).1 (gameTick s2 hands now).1
  ∧ (runTicks s1 inputs).2 = (runTicks s2 inputs).2
  ∧ (runTicks (initScene c1) inputs).2 = (runTicks (initScene c2) inputs).2
  ∧ (∀ (note : NoteData) (t : NoteTier) (ax : NoteAxis),
      judgeNote { note with tier := t, axis := ax } hands now
        = judgeNote note hands now) := by
  obtain ⟨a, b⟩ := gameTick_cosmetic s1 s2 hands now h
  refine ⟨a, b, (runTicks_cosmetic inputs s1 s2 h).1, ?_, ?_⟩
  · exact (runTicks_cosmetic inputs (initScene c1) (initScene c2)
      (initScene_cosmetic c1 c2 hcharts)).1
  · intro note t ax
    exact judgeNote_tier_axis note t ax hands now

/-- C9 witness: the probe scene and its tier and axis variant produce the
    same events on a hit tick and on a miss tick. -/
theorem tier_axis_noninterference_witness :
    (gameTick probeScene probeHands 0).2 = (gameTick probeSceneAlt probeHands 0).2
  ∧ (runTicks probeScene [(probeHands, 1)]).2
      = (runTicks probeSceneAlt [(probeHands, 1)]).2 := by
  have h := tier_axis_noninterference probeScene probeSceneAlt probeHands 0
    [(probeHands, 1)] [probeNote] [probeNoteAlt] (by decide) (by decide)
  exact ⟨h.1, h.2.2.1⟩

end Curator
